import Mathlib

set_option maxHeartbeats 1000000

/-!
Verification of the Rigatoni NOODLES server core (`rigatoni/core.py`,
`rigatoni/noodle_objects.py`): identifier allocation, the component
registry with its reference tracker and deferred-delete queue, the
create/update/delete broadcast pipeline, the topologically ordered
introduction frame, and method-invocation dispatch.  All definitions are
shallow embeddings of the Python source; machine dictionaries are
insertion-ordered association lists, Python `Queue` is a FIFO list, and
Python sets are lists with set semantics.
-/

namespace Rigatoni

/-- Component kinds of the NOODLES scene, one per concrete delegate class of
`noodle_objects.py` (Method, Signal, ..., Table). -/
inductive CompKind where
  | method | signal | entity | plot | buffer | bufferView | material
  | image | texture | sampler | light | geometry | table
  deriving DecidableEq, Repr

/-- An identifier: the `ID` NamedTuple of `noodle_objects.py`, a
`(slot, gen)` pair.  Source equality compares the runtime ID subclass
(`MethodID`, `TableID`, ...) as well, so the kind is part of the value. -/
structure NID where
  kind : CompKind
  slot : Nat
  gen : Nat
  deriving DecidableEq, Repr

/-- A pydantic field value as far as the server inspects it: an embedded
identifier, an opaque scalar (string or number), Python `None`, a list
(`vnil`/`vcons` chain) or a nested `NoodleObject` (an ordered field
dictionary, `onil`/`ocons` chain, values possibly `None`). -/
inductive Value where
  | vid (i : NID)
  | vprim (s : String)
  | vint (n : Int)
  | vnone
  | vnil
  | vcons (hd tl : Value)
  | onil
  | ocons (name : String) (v : Value) (rest : Value)
  deriving DecidableEq, Repr

/-- Build a `vcons` chain from a Lean list (helper for writing values). -/
def vlistOf : List Value → Value
  | [] => .vnil
  | v :: t => .vcons v (vlistOf t)

/-- Association-list lookup, first match: Python `d[k]` / `d.get(k)`. -/
def aget {α β : Type} [DecidableEq α] : List (α × β) → α → Option β
  | [], _ => none
  | (k, v) :: t, k₀ => if k = k₀ then some v else aget t k₀

/-- Association-list store: Python `d[k] = v` (replace in place, or append
a fresh key at the end, preserving dict insertion order). -/
def aset {α β : Type} [DecidableEq α] : List (α × β) → α → β → List (α × β)
  | [], k, v => [(k, v)]
  | (k₀, v₀) :: t, k, v => if k₀ = k then (k, v) :: t else (k₀, v₀) :: aset t k v

/-- Association-list delete: Python `del d[k]` (caller checks presence). -/
def adel {α β : Type} [DecidableEq α] : List (α × β) → α → List (α × β)
  | [], _ => []
  | (k₀, v₀) :: t, k => if k₀ = k then t else (k₀, v₀) :: adel t k

/-- A delegate (component) as the server manipulates it: its identifier,
plus the remaining pydantic field dictionary in declaration order.  The
`server` and `signals` fields of the base `Delegate` class carry no
identifiers and are never serialized (every include set removes them by
name), so only their names matter and they are not materialized here;
subclass-added fields of a behavior override live in `fields` like any
other. -/
structure Delegate where
  id : NID
  fields : List (String × Value)
  deriving DecidableEq, Repr

/-- The pydantic model items of a delegate, `(name, value)` in model field
order with the `id` field first among serialized fields (the `server`
field that precedes it is excluded from every wire projection). -/
def modelItemsL (d : Delegate) : List (String × Value) :=
  ("id", .vid d.id) :: d.fields

/-- The same items as an object chain, the shape `_update_references`
iterates over. -/
def itemsToObj : List (String × Value) → Value
  | [] => .onil
  | (n, v) :: t => .ocons n v (itemsToObj t)

/-- Schema field names of each base kind, from the class declarations in
`noodle_objects.py` (inherited `Delegate` fields first).  These drive the
include-set construction in `_get_message_contents`. -/
def baseFieldNames : CompKind → List String
  | .method => ["server", "id", "name", "signals", "doc", "return_doc", "arg_doc"]
  | .signal => ["server", "id", "name", "signals", "doc", "arg_doc"]
  | .entity => ["server", "id", "name", "signals", "parent", "transform", "text_rep",
      "web_rep", "render_rep", "lights", "tables", "plots", "tags",
      "methods_list", "signals_list", "influence"]
  | .plot => ["server", "id", "name", "signals", "table", "simple_plot", "url_plot",
      "methods_list", "signals_list"]
  | .buffer => ["server", "id", "name", "signals", "size", "inline_bytes", "uri_bytes"]
  | .bufferView => ["server", "id", "name", "signals", "source_buffer", "type",
      "offset", "length"]
  | .material => ["server", "id", "name", "signals", "pbr_info", "normal_texture",
      "occlusion_texture", "occlusion_texture_factor", "emissive_texture",
      "emissive_factor", "use_alpha", "alpha_cutoff", "double_sided"]
  | .image => ["server", "id", "name", "signals", "buffer_source", "uri_source"]
  | .texture => ["server", "id", "name", "signals", "image", "sampler"]
  | .sampler => ["server", "id", "name", "signals", "mag_filter", "min_filter",
      "wrap_s", "wrap_t"]
  | .light => ["server", "id", "name", "signals", "color", "intensity", "point",
      "spot", "directional"]
  | .geometry => ["server", "id", "name", "signals", "patches"]
  | .table => ["server", "id", "name", "signals", "meta", "methods_list", "signals_list"]

/-- Message actions of the `message_map` table in `Server.__init__`. -/
inductive MsgAction where
  | create | update | delete | reset | invoke | reply | initialized
  deriving DecidableEq, Repr

/-- The static `message_map` of `Server.__init__`, keyed by action and the
ID type of the component (`none` for document-level and session messages).
Returns `none` exactly where the Python dict has no key (a lookup there
raises `KeyError`). -/
def message_map : MsgAction → Option CompKind → Option Nat
  | .create, some .method => some 0
  | .delete, some .method => some 1
  | .create, some .signal => some 2
  | .delete, some .signal => some 3
  | .create, some .entity => some 4
  | .update, some .entity => some 5
  | .delete, some .entity => some 6
  | .create, some .plot => some 7
  | .update, some .plot => some 8
  | .delete, some .plot => some 9
  | .create, some .buffer => some 10
  | .delete, some .buffer => some 11
  | .create, some .bufferView => some 12
  | .delete, some .bufferView => some 13
  | .create, some .material => some 14
  | .update, some .material => some 15
  | .delete, some .material => some 16
  | .create, some .image => some 17
  | .delete, some .image => some 18
  | .create, some .texture => some 19
  | .delete, some .texture => some 20
  | .create, some .sampler => some 21
  | .delete, some .sampler => some 22
  | .create, some .light => some 23
  | .update, some .light => some 24
  | .delete, some .light => some 25
  | .create, some .geometry => some 26
  | .delete, some .geometry => some 27
  | .create, some .table => some 28
  | .update, some .table => some 29
  | .delete, some .table => some 30
  | .update, none => some 31
  | .reset, none => some 32
  | .invoke, none => some 33
  | .reply, none => some 34
  | .initialized, none => some 35
  | _, _ => none

/-- Wire contents are ordered dictionaries from field names to values. -/
abbrev Contents := List (String × Value)

/-- One outbound message: a tag and its content dictionary. -/
abbrev Msg := Nat × Contents

/-- The include set built in `_get_message_contents` for a create message:
all base-kind schema fields except `server` and `signals`. -/
def createInclude (k : CompKind) : List String :=
  (baseFieldNames k).filter (fun f => f ≠ "server" ∧ f ≠ "signals")

/-- Embedding of pydantic `dict(exclude_none=True, include=include)`:
model items restricted to the include set, dropping `None` values. -/
def pdict (items : List (String × Value)) (incl : List String) : List (String × Value) :=
  items.filter (fun p => p.1 ∈ incl ∧ p.2 ≠ .vnone)

/-- Contents of a create message (`_get_message_contents`, action
`create`): the base kind is decoded from the ID type, and the delegate is
serialized restricted to that base field set minus the internal fields. -/
def createContents (d : Delegate) : Contents :=
  pdict (modelItemsL d) (createInclude d.id.kind)

/-- Contents of a component update message (`_get_message_contents`,
action `update`, object present): the delta plus the `id` field,
serialized with `exclude_none`. -/
def updateContents (d : Delegate) (delta : List String) : Contents :=
  pdict (modelItemsL d) ("id" :: delta)

/-- Contents of a delete message: just the identifier. -/
def deleteContents (d : Delegate) : Contents :=
  [("id", .vid d.id)]

/-! ### The reference scan of `_update_references`

The Python function walks the pydantic items of an object and collects
every embedded identifier: a field value that is an ID (unless the field
is named `id`), a nested `NoodleObject` to recurse into, or a list whose
first element is a `NoodleObject` (recurse into every element) or an ID
(collect every element; elements of such a list are all IDs in any
validated model).  `refsOfObj` walks an object chain, `refsOfField`
dispatches on one field value, and the two list helpers walk `vcons`
chains. -/

mutual

def refsOfObj : Value → List NID
  | .ocons key v rest =>
      (if key ≠ "id" then
        match v with
        | .vid i => [i]
        | _ => refsOfField v
      else
        match v with
        | .vid _ => []
        | _ => refsOfField v) ++ refsOfObj rest
  | _ => []

def refsOfField : Value → List NID
  | .vcons hd tl =>
      match hd with
      | .ocons key v rest => refsOfObj (.ocons key v rest) ++ refsOfObjList tl
      | .onil => refsOfObjList tl
      | .vid i => i :: refsOfIdList tl
      | _ => []
  | .ocons key v rest =>
      (if key ≠ "id" then
        match v with
        | .vid i => [i]
        | _ => refsOfField v
      else
        match v with
        | .vid _ => []
        | _ => refsOfField v) ++ refsOfObj rest
  | _ => []

def refsOfObjList : Value → List NID
  | .vcons hd tl => refsOfObj hd ++ refsOfObjList tl
  | _ => []

def refsOfIdList : Value → List NID
  | .vcons (.vid i) tl => i :: refsOfIdList tl
  | .vcons _ tl => refsOfIdList tl
  | _ => []

end

/-- All identifiers referenced by a delegate, in scan order. -/
def delegateRefs (d : Delegate) : List NID :=
  refsOfObj (itemsToObj (modelItemsL d))

/-- The reverse reference index: component identifier to the set of
identifiers of components that reference it (`Server.references`). -/
abbrev RefMap := List (NID × List NID)

/-- Record one reference: `references.setdefault(val, set()).add(parent)`. -/
def refAdd (refs : RefMap) (r parent : NID) : RefMap :=
  match aget refs r with
  | none => aset refs r [parent]
  | some s => aset refs r (if parent ∈ s then s else s ++ [parent])

/-- Drop one reference: `references[val].remove(parent)`.  Python raises
`KeyError` for an absent entry; in every state reached here the entry is
present, and absence is modelled as a no-op. -/
def refRemove (refs : RefMap) (r parent : NID) : RefMap :=
  match aget refs r with
  | none => refs
  | some s => aset refs r (s.erase parent)

/-- Embedding of `_update_references(parent_delegate, current, removing)`
applied to a whole delegate: fold the scanned identifiers into the index. -/
def update_references (refs : RefMap) (parent : NID) (d : Delegate) (removing : Bool) : RefMap :=
  (delegateRefs d).foldl
    (fun acc r => if removing then refRemove acc r parent else refAdd acc r parent) refs

/-- The per-kind slot tracker of `noodle_objects.SlotTracker`: the next
fresh slot and the FIFO queue (`Queue`) of freed identifiers. -/
structure SlotTracker where
  next_slot : Nat
  on_deck : List NID
  deriving DecidableEq, Repr

/-- The mutable server state of `core.Server` that the scene operations
touch: the slot trackers (`ids`), the registry (`state`), the lagging
client snapshot (`client_state`), the reverse reference index
(`references`) and the deferred-delete queue (`delete_queue`, a set kept
in insertion order). -/
structure ServerState where
  ids : List (CompKind × SlotTracker)
  state : List (NID × Delegate)
  client_state : List (NID × Delegate)
  references : RefMap
  delete_queue : List NID
  deriving DecidableEq, Repr

/-- A server with no components, as `Server.__init__` leaves the five
collections before processing the starting state. -/
def ServerState.empty : ServerState :=
  { ids := [], state := [], client_state := [], references := [], delete_queue := [] }

/-- Embedding of `Server._get_id`: take the head of the free queue if one
is on deck, otherwise mint `(next_slot, 0)` and advance the slot counter.
The tracker for an untracked kind is created on first use. -/
def get_id (s : ServerState) (k : CompKind) : NID × ServerState :=
  let tr := (aget s.ids k).getD { next_slot := 0, on_deck := [] }
  match tr.on_deck with
  | [] =>
      (⟨k, tr.next_slot, 0⟩,
        { s with ids := aset s.ids k { next_slot := tr.next_slot + 1, on_deck := [] } })
  | i :: rest =>
      (i, { s with ids := aset s.ids k { next_slot := tr.next_slot, on_deck := rest } })

/-- Result of `create_component`: the new delegate with the successor
state and the broadcast messages, or the `ValueError` raised when the
delegate constructor rejects the attributes.  In the error case the state
still carries the identifier taken by `_get_id` before the `try` block. -/
inductive CreateResult where
  | ok (d : Delegate) (s' : ServerState) (msgs : List Msg)
  | invalid (s' : ServerState)
  deriving DecidableEq, Repr

/-- Embedding of `Server.create_component`.  The attribute validation of
the pydantic constructor is abstracted as `build`, which receives the
allocated identifier and returns the validated delegate or `none` for a
validation failure. -/
def create_component (s : ServerState) (k : CompKind) (build : NID → Option Delegate) :
    CreateResult :=
  let comp_id := (get_id s k).1
  let s₁ := (get_id s k).2
  match build comp_id with
  | none => .invalid s₁
  | some d =>
      let s₂ : ServerState :=
        { s₁ with
          state := aset s₁.state comp_id d,
          client_state := aset s₁.client_state comp_id d,
          references := update_references s₁.references d.id d false }
      .ok d s₂ [(((message_map .create (some d.id.kind)).getD 0), createContents d)]

/-- Embedding of the static helper `Server._find_delta`: the names of the
top-level fields of `edited` whose values differ from `state`; a name
absent from `state` would raise `AttributeError` in the source and is
reported as differing here (it cannot arise for same-shaped delegates). -/
def find_delta (state edited : Delegate) : List String :=
  (modelItemsL edited).filterMap (fun p =>
    match aget (modelItemsL state) p.1 with
    | some v₀ => if p.2 ≠ v₀ then some p.1 else none
    | none => some p.1)

/-- Result of `update_component`: the broadcast message with the new
state, the `ValueError` raised when the kind has no update tag
(`message_map` lookup fails inside the `try` block, after the reference
and snapshot mutations), or the `KeyError` from the `client_state` lookup
of an unknown identifier. -/
inductive UpdateResult where
  | ok (s' : ServerState) (msg : Msg)
  | unupdatable (s' : ServerState)
  | keyError
  deriving DecidableEq, Repr

/-- Embedding of `Server.update_component`: diff against the client
snapshot, rescan references (remove the old, add the new), overwrite the
snapshot, then build and broadcast the update message. -/
def update_component (s : ServerState) (current : Delegate) : UpdateResult :=
  match aget s.client_state current.id with
  | none => .keyError
  | some outdated =>
      let delta := find_delta outdated current
      let refs₁ := update_references s.references outdated.id outdated true
      let refs₂ := update_references refs₁ current.id current false
      let s₁ : ServerState :=
        { s with
          references := refs₂,
          client_state := aset s.client_state current.id current }
      match message_map .update (some current.id.kind) with
      | none => .unupdatable s₁
      | some tag => .ok s₁ (tag, updateContents current delta)

/-- Result of `delete_component`: the success branch with the broadcast
messages (the delete plus any cascade), the defer branch that queues the
identifier, a raised `KeyError`/`TypeError` carrying the state and the
messages already broadcast when the exception fired, or fuel exhaustion
(unreachable with fuel at least the registry size plus queue length). -/
inductive DeleteResult where
  | deleted (s' : ServerState) (msgs : List Msg)
  | queued (s' : ServerState)
  | error (s' : ServerState) (msgs : List Msg)
  | outOfFuel
  deriving DecidableEq, Repr

/-- The state of the success branch of `delete_component` after the
registry, snapshot, slot-queue and reference-cleaning mutations, before
the drain loop runs. -/
def delete_success_state (s : ServerState) (del_id : NID) (tr : SlotTracker) : ServerState :=
  { s with
    state := adel s.state del_id,
    client_state := adel s.client_state del_id,
    ids := aset s.ids del_id.kind { tr with on_deck := tr.on_deck ++ [del_id] },
    references := s.references.map (fun p => (p.1, p.2.filter (fun x => x ≠ del_id))) }

mutual

/-- Embedding of `Server.delete_component`.  The argument is either a
delegate or an identifier to resolve through the registry (a missing
identifier raises `KeyError` before anything is broadcast); the resolved
delegate is handled by `delete_resolved`.  Fuel decreases on every call
in this mutual group; any fuel of at least three times the registry size
plus the queue length is exact. -/
def delete_component : Nat → ServerState → Delegate ⊕ NID → DeleteResult
  | 0, _, _ => .outOfFuel
  | fuel + 1, s, target =>
      match
        (match target with
          | .inl d => some d
          | .inr i => aget s.state i : Option Delegate)
      with
      | none => .error s []
      | some delegate => delete_resolved fuel s delegate

/-- The body of `delete_component` once the delegate is in hand: with no
incoming references the delete message is broadcast, the component
removed (a second delete raises `KeyError` here, after the broadcast),
the identifier freed onto the slot queue, references cleaned, and the
delete queue drained; otherwise the identifier joins the delete queue. -/
def delete_resolved : Nat → ServerState → Delegate → DeleteResult
  | 0, _, _ => .outOfFuel
  | fuel + 1, s, delegate =>
      match aget s.references delegate.id with
      | some (_ :: _) =>
          .queued { s with
            delete_queue :=
              if delegate.id ∈ s.delete_queue then s.delete_queue
              else s.delete_queue ++ [delegate.id] }
      | _ =>
          if (aget s.state delegate.id).isSome then
            match aget s.ids delegate.id.kind with
            | none =>
                .error { s with
                  state := adel s.state delegate.id,
                  client_state := adel s.client_state delegate.id }
                  [((message_map .delete (some delegate.id.kind)).getD 0,
                    deleteContents delegate)]
            | some tr =>
                drain_queue fuel (delete_success_state s delegate.id tr)
                  (delete_success_state s delegate.id tr).delete_queue
                  [((message_map .delete (some delegate.id.kind)).getD 0,
                    deleteContents delegate)]
          else
            .error s
              [((message_map .delete (some delegate.id.kind)).getD 0,
                deleteContents delegate)]

/-- Embedding of the drain loop at the end of the success branch of
`delete_component`: walk a snapshot of the delete queue and hand every
entry whose incoming set has become empty to `drain_step`. -/
def drain_queue : Nat → ServerState → List NID → List Msg → DeleteResult
  | 0, _, _, _ => .outOfFuel
  | _ + 1, s, [], msgs => .deleted s msgs
  | fuel + 1, s, comp_id :: rest, msgs =>
      match aget s.references comp_id with
      | some (_ :: _) => drain_queue fuel s rest msgs
      | _ => drain_step fuel s comp_id rest msgs

/-- One clear-to-delete iteration of the drain loop: remove the entry
from the delete queue (an entry already removed raises `KeyError` in the
source) and recursively delete it, then continue the loop. -/
def drain_step : Nat → ServerState → NID → List NID → List Msg → DeleteResult
  | 0, _, _, _, _ => .outOfFuel
  | fuel + 1, s, comp_id, rest, msgs =>
      if comp_id ∈ s.delete_queue then
        match delete_component fuel
            { s with delete_queue := s.delete_queue.erase comp_id } (.inr comp_id) with
        | .deleted s₂ msgs₂ => drain_queue fuel s₂ rest (msgs ++ msgs₂)
        | .queued s₂ => drain_queue fuel s₂ rest msgs
        | .error s₂ msgs₂ => .error s₂ (msgs ++ msgs₂)
        | .outOfFuel => .outOfFuel
      else .error s msgs

end

/-! ### Introduction: `order_components` and `_handle_intro` -/

/-- Lookup in the reference index as the sort reads it: the value for a
key, or the empty list when the key is absent (`if id in refs`). -/
def refsGet (refs : RefMap) (i : NID) : List NID :=
  (aget refs i).getD []

/-- Embedding of `core.top_sort_recurse`: mark the identifier visited,
fold the loop `for ref in refs[id]` (recursing into every identifier
that references this one and is unvisited when its turn comes), then push
the component onto the stack.  The recursion depth is bounded by the
number of unvisited components, so any fuel of at least that count is
exact; the component lookup cannot fail for registry identifiers. -/
def top_sort_recurse : Nat → RefMap → List (NID × Delegate) → NID →
    List NID → List Delegate → List NID × List Delegate
  | 0, _, _, _, visited, stack => (visited, stack)
  | fuel + 1, refs, components, id, visited, stack =>
      let res := (refsGet refs id).foldl
        (fun acc r =>
          if r ∈ acc.1 then acc
          else top_sort_recurse fuel refs components r acc.1 acc.2)
        (visited ++ [id], stack)
      match aget components id with
      | some d => (res.1, res.2 ++ [d])
      | none => res

/-- Embedding of `core.order_components`: depth-first search from every
component in insertion order, then reverse the accumulated stack. -/
def order_components (components : List (NID × Delegate)) (refs : RefMap) :
    List Delegate :=
  let res := components.foldl
    (fun (acc : List NID × List Delegate) p =>
      if p.1 ∈ acc.1 then acc
      else top_sort_recurse components.length refs components p.1 acc.1 acc.2)
    ([], [])
  res.2.reverse

/-- Embedding of `Server.get_ids_by_type`: the registry keys whose
delegates are instances of the given kind, in insertion order. -/
def get_ids_by_type (s : ServerState) (k : CompKind) : List NID :=
  s.state.filterMap (fun p => if p.2.id.kind = k then some p.1 else none)

/-- The document update contents (`_get_message_contents`, action
`update`, object absent): all Method and Signal identifiers. -/
def documentContents (s : ServerState) : Contents :=
  [("methods_list", vlistOf ((get_ids_by_type s .method).map .vid)),
   ("signals_list", vlistOf ((get_ids_by_type s .signal).map .vid))]

/-- Embedding of `Server._handle_intro`: a create message per component
in topological order, the document update (tag 31), and the
`initialized` message (tag 35). -/
def handle_intro (s : ServerState) : List Msg :=
  (order_components s.state s.references).map
    (fun d => ((message_map .create (some d.id.kind)).getD 0, createContents d))
  ++ [((message_map .update none).getD 0, documentContents s),
      ((message_map .initialized none).getD 0, [])]

/-! ### Method invocation: `_handle_invoke` and `_invoke_method` -/

/-- An incoming invoke payload after CBOR decoding, as `_invoke_method`
reads it: `none` marks a field that is missing or malformed, so that
extracting it raises inside the parse block. -/
structure RawInvoke where
  method : Option (Nat × Nat)
  context : Option Value
  invoke_id : Option String
  args : Option (List Value)
  deriving DecidableEq, Repr

/-- What a located handler does when called: return a result, raise a
`MethodException(code, message, data)`, or raise any other exception
(carrying its message text). -/
inductive HandlerOutcome where
  | success (result : Value)
  | methodExc (code : Int) (message : Option String) (data : Option Value)
  | otherExc (detail : String)
  deriving DecidableEq, Repr

/-- The wire dictionary built for `reply.method_exception` in
`_get_message_contents`: always the three keys `code`, `message`, `data`,
with Python `None` for an unset message or data. -/
def excContents (code : Int) (message : Option String) (data : Option Value) : Value :=
  .ocons "code" (.vint code)
    (.ocons "message" (match message with | some m => .vprim m | none => .vnone)
      (.ocons "data" (data.getD .vnone) .onil))

/-- The reply wire contents: pydantic `dict(exclude_none=True)` over the
`Reply` model (fields `invoke_id`, `result`, `method_exception` in
declaration order), with the method-exception entry replaced by its
three-key dictionary. -/
def replyContents (invoke_id : String) (result : Option Value)
    (exc : Option (Int × Option String × Option Value)) : Contents :=
  [("invoke_id", .vprim invoke_id)]
  ++ (match result with | some r => [("result", r)] | none => [])
  ++ (match exc with
      | some (c, m, d) => [("method_exception", excContents c m d)]
      | none => [])

/-- Embedding of `_invoke_method` followed by the exception handling of
`_handle_invoke`: parse the message (any failure keeps the placeholder
invoke id `"-1"` and yields code -32700), locate the method by its name in
the registry (failure yields -32601), call the handler, and map a raised
`MethodException` verbatim and any other exception to the opaque
-32603 internal error.  `methods` stands for `getattr(self, name)`, the
injected server methods. -/
def handle_invoke (s : ServerState)
    (methods : String → Option (Option Value → List Value → HandlerOutcome))
    (msg : RawInvoke) : Msg :=
  let reply :=
    match msg.method, msg.invoke_id, msg.args with
    | some m, some iid, some args =>
        let method_id : NID := ⟨.method, m.1, m.2⟩
        (match aget s.state method_id with
         | none => replyContents iid none (some (-32601, some "Method Not Found", none))
         | some d =>
             match aget d.fields "name" with
             | some (.vprim nm) =>
                 (match methods nm with
                  | none => replyContents iid none (some (-32601, some "Method Not Found", none))
                  | some handler =>
                      match handler msg.context args with
                      | .success r => replyContents iid (some r) none
                      | .methodExc c m d => replyContents iid none (some (c, m, d))
                      | .otherExc _ =>
                          replyContents iid none (some (-32603, some "Internal Error", none)))
             | _ => replyContents iid none (some (-32601, some "Method Not Found", none)))
    | _, _, _ => replyContents "-1" none (some (-32700, some "Parse Error", none))
  ((message_map .reply none).getD 0, reply)

/-! ### Result accessors -/

/-- The delegate returned by a successful create. -/
def CreateResult.delegate : CreateResult → Option Delegate
  | .ok d _ _ => some d
  | .invalid _ => none

/-- The server state after a create call (also mutated on failure). -/
def CreateResult.nextState : CreateResult → ServerState
  | .ok _ s _ => s
  | .invalid s => s

/-- The messages broadcast by a create call. -/
def CreateResult.msgs : CreateResult → List Msg
  | .ok _ _ m => m
  | .invalid _ => []

/-- The message broadcast by an update call, if any. -/
def UpdateResult.message : UpdateResult → Option Msg
  | .ok _ m => some m
  | _ => none

/-- The server state after an update call (`keyError` leaves it alone). -/
def UpdateResult.nextState (s : ServerState) : UpdateResult → ServerState
  | .ok s' _ => s'
  | .unupdatable s' => s'
  | .keyError => s

/-- The messages broadcast during a delete call, including those already
sent when an exception fired. -/
def DeleteResult.msgs : DeleteResult → List Msg
  | .deleted _ m => m
  | .queued _ => []
  | .error _ m => m
  | .outOfFuel => []

/-- The server state after a delete call. -/
def DeleteResult.nextState (s : ServerState) : DeleteResult → ServerState
  | .deleted s' _ => s'
  | .queued s' => s'
  | .error s' _ => s'
  | .outOfFuel => s

/-! ### Concrete delegate constructors for the end-to-end scenarios

Each `...Build` mirrors the pydantic constructor of one component class:
it assembles the field dictionary in declaration order and applies the
model validators (`one_of` checks) of `noodle_objects.py`, returning
`none` where the constructor would raise a validation error. -/

/-- Construction of a `Table` (no validator; every field optional). -/
def tableBuild (nm : String) : NID → Option Delegate := fun i =>
  some ⟨i, [("name", .vprim nm), ("meta", .vnone),
            ("methods_list", .vnone), ("signals_list", .vnone)]⟩

/-- Field dictionary of an `Entity` with a name and an optional light
list; all other fields default to `None`. -/
def entityFields (nm : Value) (lights : Value) : List (String × Value) :=
  [("name", nm), ("parent", .vnone), ("transform", .vnone), ("text_rep", .vnone),
   ("web_rep", .vnone), ("render_rep", .vnone), ("lights", lights), ("tables", .vnone),
   ("plots", .vnone), ("tags", .vnone), ("methods_list", .vnone),
   ("signals_list", .vnone), ("influence", .vnone)]

/-- Construction of an `Entity` (no validator). -/
def entityBuild (nm : Value) (lights : Value) : NID → Option Delegate := fun i =>
  some ⟨i, entityFields nm lights⟩

/-- Field dictionary of a `Light` with the source defaults for color and
intensity. -/
def lightFields (nm point spot directional : Value) : List (String × Value) :=
  [("name", nm),
   ("color", vlistOf [.vprim "1.0", .vprim "1.0", .vprim "1.0"]),
   ("intensity", .vprim "1.0"),
   ("point", point), ("spot", spot), ("directional", directional)]

/-- Construction of a `Light`, applying the `one_of` model validator:
more than one selected light type or none at all raises. -/
def lightBuild (nm point spot directional : Value) : NID → Option Delegate := fun i =>
  let selected := [point, spot, directional].countP (fun v => v ≠ .vnone)
  if 1 < selected then none
  else if selected = 0 then none
  else some ⟨i, lightFields nm point spot directional⟩

/-- Construction of a `Buffer` with inline bytes (its `one_of` validator
is satisfied by construction here). -/
def bufferBuild (nm : String) (sz : Int) : NID → Option Delegate := fun i =>
  some ⟨i, [("name", .vprim nm), ("size", .vint sz),
            ("inline_bytes", .vprim "bytes"), ("uri_bytes", .vnone)]⟩

/-- Construction of a `BufferView` over a source buffer. -/
def viewBuild (src : NID) : NID → Option Delegate := fun i =>
  some ⟨i, [("name", .vnone), ("source_buffer", .vid src), ("type", .vprim "UNK"),
            ("offset", .vint 0), ("length", .vint 8)]⟩

/-- Construction of a `Geometry` with one patch whose attribute
references a buffer view. -/
def geomBuild (view : NID) : NID → Option Delegate := fun i =>
  some ⟨i, [("name", .vnone),
    ("patches", vlistOf [Value.ocons "attributes"
        (vlistOf [Value.ocons "view" (.vid view) (.ocons "semantic" (.vprim "POSITION") .onil)])
        (.ocons "vertex_count" (.vint 3)
          (.ocons "type" (.vprim "TRIANGLES") (.ocons "material" .vnone .onil)))])]⟩

/-- Construction of a `Method` (name required). -/
def methodBuild (nm : String) : NID → Option Delegate := fun i =>
  some ⟨i, [("name", .vprim nm), ("doc", .vnone),
            ("return_doc", .vnone), ("arg_doc", .vnil)]⟩

/-! ### Association-list lemmas -/

theorem aget_aset_self {α β : Type} [DecidableEq α] (l : List (α × β)) (k : α) (v : β) :
    aget (aset l k v) k = some v := by
  induction l with
  | nil => simp [aget, aset]
  | cons p t ih =>
      by_cases h : p.1 = k
      · simp [aset, h, aget]
      · simp [aset, h, aget, ih]

theorem aget_aset_ne {α β : Type} [DecidableEq α] (l : List (α × β)) (k k₀ : α) (v : β)
    (h : k ≠ k₀) : aget (aset l k v) k₀ = aget l k₀ := by
  induction l with
  | nil => simp [aget, aset, h]
  | cons p t ih =>
      cases p with
      | mk a b =>
          by_cases hp : a = k
          · subst hp; simp [aset, aget, h]
          · simp only [aset, hp, if_false]
            by_cases ha : a = k₀ <;> simp [aget, ha, ih]

theorem aget_mem {α β : Type} [DecidableEq α] (l : List (α × β)) (k : α) (v : β)
    (h : aget l k = some v) : (k, v) ∈ l := by
  induction l with
  | nil => simp [aget] at h
  | cons p t ih =>
      cases p with
      | mk a b =>
          simp only [aget] at h
          by_cases ha : a = k
          · subst ha; simp at h; subst h; exact List.mem_cons_self _ _
          · simp [ha] at h; exact List.mem_cons_of_mem _ (ih h)

theorem mem_fst_exists_aget {α β : Type} [DecidableEq α] (l : List (α × β)) (k : α)
    (h : k ∈ l.map Prod.fst) : ∃ v, aget l k = some v := by
  induction l with
  | nil => simp at h
  | cons p t ih =>
      cases p with
      | mk a b =>
          by_cases ha : a = k
          · exact ⟨b, by simp [aget, ha]⟩
          · have ht : k ∈ t.map Prod.fst := by
              simp only [List.map_cons] at h
              rcases List.mem_cons.mp h with h | h
              · exact absurd h.symm ha
              · exact h
            rcases ih ht with ⟨v, hv⟩
            exact ⟨v, by simp [aget, ha, hv]⟩

/-! ### C1: identifier recycling across delete

Scenario of spec item S2: two tables are created, the first deleted, and
a third created.  The source pushes the freed identifier onto the slot
queue unchanged (`self.ids[type(delegate)].on_deck.put(del_id)` in
`delete_component`), so the third create returns `(Table, 0, 0)` again,
not `(Table, 0, 1)`. -/

def c1_run1 : CreateResult := create_component ServerState.empty .table (tableBuild "T")

def c1_state1 : ServerState := c1_run1.nextState

def c1_table1 : Delegate := (c1_run1.delegate).getD ⟨⟨.table, 99, 99⟩, []⟩

def c1_run2 : CreateResult := create_component c1_state1 .table (tableBuild "T")

def c1_state2 : ServerState := c1_run2.nextState

def c1_delete : DeleteResult := delete_component 20 c1_state2 (.inl c1_table1)

def c1_state3 : ServerState := c1_delete.nextState c1_state2

def c1_run3 : CreateResult := create_component c1_state3 .table (tableBuild "T2")

/-- C1 counterexample: after creating Tables (0,0) and (1,0) and deleting
the first, the next create of a Table yields identifier (Table, 0, 0) with
the generation unchanged, not (Table, 0, 1) as the claim states; the
first two creates and the delete behave as the scenario sets up. -/
theorem c1_slot_recycling_counterexample :
    (c1_run1.delegate).map Delegate.id = some ⟨.table, 0, 0⟩ ∧
    (c1_run2.delegate).map Delegate.id = some ⟨.table, 1, 0⟩ ∧
    (match c1_delete with | .deleted _ _ => true | _ => false) = true ∧
    (c1_run3.delegate).map Delegate.id = some ⟨.table, 0, 0⟩ ∧
    ¬ ((c1_run3.delegate).map Delegate.id = some ⟨.table, 0, 1⟩) := by
  decide

/-- C1 (amended): deleting the component with identifier (s, g) pushes
(s, g) itself onto the free queue of its kind with the generation
unchanged, and when the queue was previously empty the next allocation
for that kind returns exactly (s, g) again, so generations repeat rather
than strictly increase.  Stated for any unreferenced, registered
component in a server with an empty delete queue. -/
theorem c1_delete_requeues_same_generation
    (s : ServerState) (d : Delegate) (tr : SlotTracker) (n : Nat)
    (hrefs : aget s.references d.id = none ∨ aget s.references d.id = some [])
    (hstate : (aget s.state d.id).isSome = true)
    (htr : aget s.ids d.id.kind = some tr)
    (hq : s.delete_queue = []) :
    ∃ s₁, delete_component (n + 3) s (.inl d) =
        .deleted s₁ [((message_map .delete (some d.id.kind)).getD 0, deleteContents d)] ∧
      aget s₁.ids d.id.kind = some { tr with on_deck := tr.on_deck ++ [d.id] } ∧
      (tr.on_deck = [] → (get_id s₁ d.id.kind).1 = d.id) := by
  refine ⟨?_, ?_, ?_, ?_⟩
  · exact { s with
      state := adel s.state d.id,
      client_state := adel s.client_state d.id,
      ids := aset s.ids d.id.kind { tr with on_deck := tr.on_deck ++ [d.id] },
      references := s.references.map (fun p => (p.1, p.2.filter (fun x => x ≠ d.id))) }
  · show delete_component (n + 2 + 1) s (.inl d) = _
    rw [delete_component]
    rcases hrefs with h | h <;>
      simp only [delete_resolved, h, hstate, htr, if_true, delete_success_state, hq, drain_queue]
  · exact aget_aset_self ..
  · intro hdeck
    simp [get_id, aget_aset_self, hdeck]

/-- C1 amended-claim witness: the general requeue theorem applied to the
concrete two-table scenario, where the next allocation indeed returns
(Table, 0, 0). -/
theorem c1_delete_requeues_same_generation_witness :
    ∃ s₁, delete_component 3 c1_state2 (.inl c1_table1) =
        .deleted s₁ [((message_map .delete (some c1_table1.id.kind)).getD 0,
                      deleteContents c1_table1)] ∧
      aget s₁.ids c1_table1.id.kind =
        some { next_slot := 2, on_deck := [] ++ [c1_table1.id] } ∧
      (([] : List NID) = [] → (get_id s₁ c1_table1.id.kind).1 = c1_table1.id) := by
  have h := c1_delete_requeues_same_generation c1_state2 c1_table1
    { next_slot := 2, on_deck := [] } 0
    (by decide) (by decide) (by decide) (by decide)
  exact h

/-! ### C2: validation failure at create

`create_component` calls `_get_id` before the `try` block around the
delegate constructor, so a validation failure leaves the registry, the
client snapshot, the reference index and the delete queue untouched and
broadcasts nothing, but the allocated identifier is leaked: the allocator
has already advanced when the `ValueError` is raised. -/

theorem get_id_keeps_other_fields (s : ServerState) (k : CompKind) :
    (get_id s k).2.state = s.state ∧ (get_id s k).2.client_state = s.client_state ∧
    (get_id s k).2.references = s.references ∧
    (get_id s k).2.delete_queue = s.delete_queue := by
  cases h : ((aget s.ids k).getD { next_slot := 0, on_deck := [] }).on_deck with
  | nil => simp [get_id, h]
  | cons i rest => simp [get_id, h]

/-- C2 (amended): a create call whose attributes fail validation fails
synchronously (the `ValueError` of `create_component`), leaves the
registry, client snapshot, reference index and delete queue unchanged and
broadcasts nothing, but the identifier allocator is advanced: the state
it leaves is exactly the post-`_get_id` state, so the failed call
consumes the identifier it allocated. -/
theorem c2_failed_create_consumes_id
    (s : ServerState) (k : CompKind) (build : NID → Option Delegate)
    (hfail : build (get_id s k).1 = none) :
    create_component s k build = .invalid (get_id s k).2 ∧
    (create_component s k build).msgs = [] ∧
    (get_id s k).2.state = s.state ∧
    (get_id s k).2.client_state = s.client_state ∧
    (get_id s k).2.references = s.references ∧
    (get_id s k).2.delete_queue = s.delete_queue := by
  have h₁ : create_component s k build = .invalid (get_id s k).2 := by
    simp [create_component, hfail]
  refine ⟨h₁, ?_, ?_, ?_, ?_, ?_⟩
  · rw [h₁]; rfl
  all_goals
    first
    | exact (get_id_keeps_other_fields s k).1
    | exact (get_id_keeps_other_fields s k).2.1
    | exact (get_id_keeps_other_fields s k).2.2.1
    | exact (get_id_keeps_other_fields s k).2.2.2

/-- Scenario of spec item S1: a Light with no light type selected. -/
def c2_run1 : CreateResult :=
  create_component ServerState.empty .light (lightBuild (.vprim "L") .vnone .vnone .vnone)

def c2_state1 : ServerState := c2_run1.nextState

/-- A valid Light create after the failed one. -/
def c2_run2 : CreateResult :=
  create_component c2_state1 .light
    (lightBuild (.vprim "L") (.ocons "range" (.vint (-1)) .onil) .vnone .vnone)

/-- C2 counterexample: `create(Light, name only)` fails with no broadcast
and no change to registry, client snapshot, references or delete queue --
but the following valid Light create yields identifier (Light, 1, 0), not
(Light, 0, 0) as the claim states, because the failed call consumed slot
0. -/
theorem c2_invalid_attrs_counterexample :
    (match c2_run1 with | .invalid _ => true | _ => false) = true ∧
    c2_run1.msgs = [] ∧
    c2_state1.state = [] ∧ c2_state1.client_state = [] ∧
    c2_state1.references = [] ∧ c2_state1.delete_queue = [] ∧
    (c2_run2.delegate).map Delegate.id = some ⟨.light, 1, 0⟩ ∧
    ¬ ((c2_run2.delegate).map Delegate.id = some ⟨.light, 0, 0⟩) := by
  decide

/-- C2 amended-claim witness: the general theorem applied to the failing
Light create on the fresh server. -/
theorem c2_failed_create_consumes_id_witness :
    create_component ServerState.empty .light
        (lightBuild (.vprim "L") .vnone .vnone .vnone) =
      .invalid (get_id ServerState.empty .light).2 ∧
    (create_component ServerState.empty .light
        (lightBuild (.vprim "L") .vnone .vnone .vnone)).msgs = [] ∧
    (get_id ServerState.empty .light).2.state = ServerState.empty.state ∧
    (get_id ServerState.empty .light).2.client_state = ServerState.empty.client_state ∧
    (get_id ServerState.empty .light).2.references = ServerState.empty.references ∧
    (get_id ServerState.empty .light).2.delete_queue = ServerState.empty.delete_queue :=
  c2_failed_create_consumes_id ServerState.empty .light
    (lightBuild (.vprim "L") .vnone .vnone .vnone) (by decide)

/-! ### C3 and C8: the update pipeline

`update_component` computes the delta, rescans references, overwrites the
client snapshot, and only then consults `message_map`.  When the delta is
empty no guard prevents the broadcast: the update message is still built
(its include set degenerates to the `id` field) and broadcast.  When the
kind has no update tag the `KeyError` inside the `try` block surfaces as
a `ValueError`, after the reference and snapshot mutations. -/

/-- C3 (amended): a successful update always emits exactly one frame: its
contents are precisely the entries of the model whose field is the `id`
or is in the delta and whose value is not null.  In particular when no
top-level field differs from the client snapshot, a frame carrying only
the `id` is still emitted, and when fields differ the frame carries the
`id` plus exactly the changed non-null fields. -/
theorem c3_update_frame_is_id_plus_delta
    (s : ServerState) (current outdated : Delegate) (tag : Nat)
    (hcs : aget s.client_state current.id = some outdated)
    (htag : message_map .update (some current.id.kind) = some tag)
    (hid : "id" ∉ current.fields.map Prod.fst) :
    ∃ s₁, update_component s current =
        .ok s₁ (tag, updateContents current (find_delta outdated current)) ∧
      (∀ n v, (n, v) ∈ updateContents current (find_delta outdated current) ↔
        ((n, v) ∈ modelItemsL current ∧
          (n = "id" ∨ n ∈ find_delta outdated current) ∧ v ≠ .vnone)) ∧
      (find_delta outdated current = [] →
        updateContents current (find_delta outdated current) = [("id", .vid current.id)]) := by
  refine ⟨{ s with
      references := update_references
        (update_references s.references outdated.id outdated true) current.id current false,
      client_state := aset s.client_state current.id current }, ?_, ?_, ?_⟩
  · simp only [update_component, hcs, htag]
  · intro n v
    simp [updateContents, pdict, List.mem_filter]
  · intro hdelta
    rw [hdelta]
    simp only [updateContents, pdict, modelItemsL, List.filter_cons]
    simp only [List.mem_singleton, List.filter_eq_nil_iff]
    simp
    intro a b hab ha
    exact absurd (ha ▸ List.mem_map_of_mem Prod.fst hab) hid

/-- Scenario of spec item S4: an entity created with name `a`. -/
def c3_run1 : CreateResult :=
  create_component ServerState.empty .entity (entityBuild (.vprim "a") .vnone)

def c3_state1 : ServerState := c3_run1.nextState

def c3_entity : Delegate := (c3_run1.delegate).getD ⟨⟨.entity, 99, 99⟩, []⟩

/-- The same entity with its name changed to `b`. -/
def c3_entity_b : Delegate := { c3_entity with fields := entityFields (.vprim "b") .vnone }

/-- C3 counterexample: calling update with no field changed still emits a
frame (tag 5 with content carrying only the id), refuting the claim that
no frame at all is produced; changing only the name then emits tag 5 with
exactly the id and the name. -/
theorem c3_minimal_update_counterexample :
    find_delta c3_entity c3_entity = [] ∧
    (update_component c3_state1 c3_entity).message =
      some (5, [("id", .vid ⟨.entity, 0, 0⟩)]) ∧
    (update_component c3_state1 c3_entity_b).message =
      some (5, [("id", .vid ⟨.entity, 0, 0⟩), ("name", .vprim "b")]) := by
  decide

/-- C3 amended-claim witness: the general frame characterization applied
to the unchanged-entity update of the concrete scenario. -/
theorem c3_update_frame_is_id_plus_delta_witness :
    ∃ s₁, update_component c3_state1 c3_entity =
        .ok s₁ (5, updateContents c3_entity (find_delta c3_entity c3_entity)) ∧
      (∀ n v, (n, v) ∈ updateContents c3_entity (find_delta c3_entity c3_entity) ↔
        ((n, v) ∈ modelItemsL c3_entity ∧
          (n = "id" ∨ n ∈ find_delta c3_entity c3_entity) ∧ v ≠ .vnone)) ∧
      (find_delta c3_entity c3_entity = [] →
        updateContents c3_entity (find_delta c3_entity c3_entity) =
          [("id", .vid c3_entity.id)]) :=
  c3_update_frame_is_id_plus_delta c3_state1 c3_entity c3_entity 5
    (by decide) (by decide) (by decide)

/-- C8 (amended): updating a component whose kind has no update tag fails
with the `ValueError` of `update_component` and broadcasts nothing, and
the registry is left unchanged -- but the call is not free of state
mutation: before failing it overwrites `client_state` with the new copy
and rescans the reference index (removing the snapshot references and
adding the new ones). -/
theorem c8_unupdatable_mutates_before_failing
    (s : ServerState) (current outdated : Delegate)
    (hcs : aget s.client_state current.id = some outdated)
    (htag : message_map .update (some current.id.kind) = none) :
    ∃ s₁, update_component s current = .unupdatable s₁ ∧
      (update_component s current).message = none ∧
      s₁.state = s.state ∧
      s₁.client_state = aset s.client_state current.id current ∧
      s₁.references = update_references
        (update_references s.references outdated.id outdated true) current.id current false := by
  refine ⟨{ s with
      references := update_references
        (update_references s.references outdated.id outdated true) current.id current false,
      client_state := aset s.client_state current.id current }, ?_, ?_, rfl, rfl, rfl⟩
  · simp only [update_component, hcs, htag]
  · simp only [update_component, hcs, htag, UpdateResult.message]

/-- Scenario: a Buffer (a kind with no update tag) whose name is then
changed and updated. -/
def c8_run1 : CreateResult :=
  create_component ServerState.empty .buffer (bufferBuild "b" 8)

def c8_state1 : ServerState := c8_run1.nextState

def c8_buf : Delegate := (c8_run1.delegate).getD ⟨⟨.buffer, 99, 99⟩, []⟩

def c8_buf_renamed : Delegate :=
  { c8_buf with fields := [("name", .vprim "b2"), ("size", .vint 8),
      ("inline_bytes", .vprim "bytes"), ("uri_bytes", .vnone)] }

/-- C8 counterexample: updating a renamed Buffer fails (no update tag)
with no broadcast and an unchanged registry, as claimed -- but the client
snapshot for the buffer has changed when the call fails, refuting the
no-state-mutation part of the claim. -/
theorem c8_unupdatable_counterexample :
    (match update_component c8_state1 c8_buf_renamed with
      | .unupdatable _ => true | _ => false) = true ∧
    (update_component c8_state1 c8_buf_renamed).message = none ∧
    ((update_component c8_state1 c8_buf_renamed).nextState c8_state1).state
      = c8_state1.state ∧
    ¬ (aget ((update_component c8_state1 c8_buf_renamed).nextState c8_state1).client_state
        c8_buf.id = aget c8_state1.client_state c8_buf.id) := by
  decide

/-- C8 amended-claim witness: the general theorem applied to the renamed
Buffer update. -/
theorem c8_unupdatable_mutates_before_failing_witness :
    ∃ s₁, update_component c8_state1 c8_buf_renamed = .unupdatable s₁ ∧
      (update_component c8_state1 c8_buf_renamed).message = none ∧
      s₁.state = c8_state1.state ∧
      s₁.client_state = aset c8_state1.client_state c8_buf_renamed.id c8_buf_renamed ∧
      s₁.references = update_references
        (update_references c8_state1.references c8_buf.id c8_buf true)
        c8_buf_renamed.id c8_buf_renamed false := by
  have h := c8_unupdatable_mutates_before_failing c8_state1 c8_buf_renamed c8_buf
    (by decide) (by decide)
  exact h

/-! ### C7: double delete

After a successful delete the registry entry is gone and the reference
index no longer lists the identifier, so a second call reaches the
success branch again when given the delegate object: it broadcasts a
duplicate delete message and only then raises `KeyError` on
`del self.state[del_id]`.  Called with the bare identifier instead, the
initial registry lookup raises first and nothing is broadcast.  Neither
path mutates the state. -/

/-- C7 (amended): a second delete of the same component raises `KeyError`
and leaves the server state unchanged, so state is not corrupted -- but
the claim that no duplicate delete broadcast is emitted holds only for
the identifier-argument form (whose registry lookup fails before any
broadcast); the delegate-argument form broadcasts a duplicate delete
message before raising. -/
theorem c7_double_delete
    (s : ServerState) (d : Delegate) (n : Nat)
    (hstate : aget s.state d.id = none)
    (hrefs : aget s.references d.id = none ∨ aget s.references d.id = some []) :
    delete_component (n + 2) s (.inl d) =
      .error s [((message_map .delete (some d.id.kind)).getD 0, deleteContents d)] ∧
    delete_component (n + 2) s (.inr d.id) = .error s [] := by
  constructor
  · show delete_component (n + 1 + 1) s (.inl d) = _
    rw [delete_component]
    rcases hrefs with h | h <;> simp [delete_resolved, h, hstate]
  · show delete_component (n + 1 + 1) s (.inr d.id) = _
    rw [delete_component]
    simp [hstate]

/-- Scenario: one table created and deleted once. -/
def c7_run1 : CreateResult := create_component ServerState.empty .table (tableBuild "T")

def c7_state1 : ServerState := c7_run1.nextState

def c7_table : Delegate := (c7_run1.delegate).getD ⟨⟨.table, 99, 99⟩, []⟩

def c7_delete1 : DeleteResult := delete_component 20 c7_state1 (.inl c7_table)

def c7_state2 : ServerState := c7_delete1.nextState c7_state1

/-- C7 counterexample: the second delete called with the delegate object
finds no incoming references, broadcasts a second delete message (tag 30
for the same identifier) and then raises, refuting the claim that the
second call emits no duplicate delete broadcast. -/
theorem c7_double_delete_counterexample :
    (match c7_delete1 with | .deleted _ _ => true | _ => false) = true ∧
    (delete_component 20 c7_state2 (.inl c7_table)).msgs =
      [(30, [("id", .vid ⟨.table, 0, 0⟩)])] ∧
    ¬ ((delete_component 20 c7_state2 (.inl c7_table)).msgs = []) := by
  decide

/-- C7 amended-claim witness: the general double-delete theorem applied
to the concrete deleted table. -/
theorem c7_double_delete_witness :
    delete_component 20 c7_state2 (.inl c7_table) =
      .error c7_state2 [((message_map .delete (some c7_table.id.kind)).getD 0,
                      deleteContents c7_table)] ∧
    delete_component 20 c7_state2 (.inr c7_table.id) = .error c7_state2 [] :=
  c7_double_delete c7_state2 c7_table 18 (by decide) (by decide)

/-! ### C9: the create wire projection

The create contents are computed by decoding the base kind from the ID
type, forming the include set of all base schema fields minus `server`
and `signals`, and serializing with `exclude_none`.  Fields added by a
behavior-override subclass are not in the base field set and never reach
the wire. -/

theorem mem_createInclude (k : CompKind) (n : String) :
    n ∈ createInclude k ↔ (n ∈ baseFieldNames k ∧ n ≠ "server" ∧ n ≠ "signals") := by
  simp [createInclude, List.mem_filter]

/-- C9: for every delegate created by `create_component` (including one
built by a behavior-override subclass with extra fields), the single
broadcast create message carries exactly the entries whose field is a
base-kind schema field other than `server` and `signals` and whose value
is not null; in particular the server back-reference, the signals map and
any subclass-added field never appear on the wire. -/
theorem c9_create_broadcast_is_public_projection
    (s : ServerState) (k : CompKind) (build : NID → Option Delegate)
    (d : Delegate) (s' : ServerState) (msgs : List Msg)
    (h : create_component s k build = .ok d s' msgs) :
    msgs = [((message_map .create (some d.id.kind)).getD 0, createContents d)] ∧
    (∀ n v, (n, v) ∈ createContents d ↔
      ((n, v) ∈ modelItemsL d ∧ n ∈ baseFieldNames d.id.kind ∧
        n ≠ "server" ∧ n ≠ "signals" ∧ v ≠ .vnone)) := by
  constructor
  · revert h
    simp only [create_component]
    cases hb : build (get_id s k).1 with
    | none => intro h; cases h
    | some d₀ => intro h; cases h; rfl
  · intro n v
    simp [createContents, pdict, List.mem_filter, mem_createInclude, and_assoc]

/-- C9 witness: the projection characterization applied to the concrete
table create on the fresh server, whose message omits the null fields. -/
theorem c9_create_broadcast_is_public_projection_witness :
    (c1_run1.msgs = [((message_map .create (some c1_table1.id.kind)).getD 0,
        createContents c1_table1)] ∧
      (∀ n v, (n, v) ∈ createContents c1_table1 ↔
        ((n, v) ∈ modelItemsL c1_table1 ∧ n ∈ baseFieldNames c1_table1.id.kind ∧
          n ≠ "server" ∧ n ≠ "signals" ∧ v ≠ .vnone))) ∧
    createContents c1_table1 = [("id", .vid ⟨.table, 0, 0⟩), ("name", .vprim "T")] := by
  constructor
  · exact c9_create_broadcast_is_public_projection ServerState.empty .table
      (tableBuild "T") c1_table1 c1_state1 c1_run1.msgs (by decide)
  · decide

/-! ### C10 and C5: invocation replies

`_handle_invoke` starts from a reply whose invoke id is the placeholder
string `-1`; `_invoke_method` only overwrites it after the `method`,
`invoke_id` and `args` fields have all been extracted, so any parse
failure replies with the placeholder and code -32700.  A raised
`MethodException` is copied verbatim into the three-key exception
dictionary; any other exception becomes the constant internal-error
dictionary, whose `data` key is present and null. -/

/-- C10: an invocation message with a missing or malformed `method`,
`invoke_id` or `args` field still yields a well-formed reply (tag 34)
whose method exception has code -32700, and whose invoke id is the
literal placeholder string `-1` rather than an echo of the client id. -/
theorem c10_parse_error_replies_placeholder
    (s : ServerState)
    (methods : String → Option (Option Value → List Value → HandlerOutcome))
    (msg : RawInvoke)
    (h : msg.method = none ∨ msg.invoke_id = none ∨ msg.args = none) :
    handle_invoke s methods msg =
      (34, [("invoke_id", .vprim "-1"),
            ("method_exception", excContents (-32700) (some "Parse Error") none)]) := by
  obtain ⟨mth, ctx, inv, ar⟩ := msg
  cases mth <;> cases inv <;> cases ar <;> first | rfl | simp_all

/-- C10 witness: the placeholder reply at a concrete malformed message
(valid method and invoke id, missing args). -/
theorem c10_parse_error_replies_placeholder_witness :
    handle_invoke ServerState.empty (fun _ => none)
        ⟨some (0, 0), none, some "7", none⟩ =
      (34, [("invoke_id", .vprim "-1"),
            ("method_exception", excContents (-32700) (some "Parse Error") none)]) :=
  c10_parse_error_replies_placeholder ServerState.empty (fun _ => none)
    ⟨some (0, 0), none, some "7", none⟩ (by simp)

/-- C5 (amended): a handler raising `MethodException(c, m, d)` yields a
reply carrying exactly the dictionary with code c, message m and data d;
a handler raising any other exception yields a reply carrying exactly
code -32603, message ``Internal Error`` and a null data entry, with no
trace of the original exception detail, and the dispatcher returns a
reply rather than crashing in both cases. -/
theorem c5_method_exception_fidelity
    (s : ServerState)
    (methods : String → Option (Option Value → List Value → HandlerOutcome))
    (msg : RawInvoke) (m : Nat × Nat) (iid : String) (args : List Value)
    (d : Delegate) (nm : String)
    (handler : Option Value → List Value → HandlerOutcome)
    (hm : msg.method = some m) (hi : msg.invoke_id = some iid) (ha : msg.args = some args)
    (hd : aget s.state ⟨.method, m.1, m.2⟩ = some d)
    (hn : aget d.fields "name" = some (.vprim nm))
    (hh : methods nm = some handler) :
    (∀ c mm dd, handler msg.context args = .methodExc c mm dd →
      handle_invoke s methods msg =
        (34, [("invoke_id", .vprim iid), ("method_exception", excContents c mm dd)])) ∧
    (∀ detail, handler msg.context args = .otherExc detail →
      handle_invoke s methods msg =
        (34, [("invoke_id", .vprim iid),
              ("method_exception", excContents (-32603) (some "Internal Error") none)])) := by
  obtain ⟨mth, ctx, inv, ar⟩ := msg
  simp only at hm hi ha
  subst hm hi ha
  constructor
  · intro c mm dd hout
    simp [handle_invoke, hd, hn, hh, hout, replyContents, message_map]
  · intro detail hout
    simp [handle_invoke, hd, hn, hh, hout, replyContents, message_map]

/-- Scenario: a Method named `m` on a fresh server, and a handler map
that raises a plain exception carrying a secret detail. -/
def c5_run1 : CreateResult := create_component ServerState.empty .method (methodBuild "m")

def c5_state1 : ServerState := c5_run1.nextState

def c5_bad_handlers : String → Option (Option Value → List Value → HandlerOutcome) :=
  fun nm => if nm = "m" then some (fun _ _ => .otherExc "secret detail") else none

def c5_good_handlers : String → Option (Option Value → List Value → HandlerOutcome) :=
  fun nm => if nm = "m" then
    some (fun _ _ => .methodExc 7 (some "boom") (some (.vint 3))) else none

def c5_reply_internal : Msg :=
  handle_invoke c5_state1 c5_bad_handlers ⟨some (0, 0), none, some "7", some []⟩

/-- C5 counterexample: the internal-error reply is not the two-key
dictionary the claim states: the wire dictionary built by
`_get_message_contents` always carries a third `data` key (null here), so
the reply carries exactly code, message and null data. -/
theorem c5_internal_error_counterexample :
    c5_reply_internal =
      (34, [("invoke_id", .vprim "7"),
            ("method_exception", excContents (-32603) (some "Internal Error") none)]) ∧
    ¬ (c5_reply_internal =
      (34, [("invoke_id", .vprim "7"),
            ("method_exception", Value.ocons "code" (.vint (-32603))
              (Value.ocons "message" (.vprim "Internal Error") .onil))])) := by
  decide

/-- C5 amended-claim witness: fidelity and opacity applied to the
concrete Method `m` with a `MethodException(7, boom, 3)` handler and with
a plain-exception handler. -/
theorem c5_method_exception_fidelity_witness :
    handle_invoke c5_state1 c5_good_handlers ⟨some (0, 0), none, some "7", some []⟩ =
      (34, [("invoke_id", .vprim "7"),
            ("method_exception", excContents 7 (some "boom") (some (.vint 3)))]) ∧
    handle_invoke c5_state1 c5_bad_handlers ⟨some (0, 0), none, some "7", some []⟩ =
      (34, [("invoke_id", .vprim "7"),
            ("method_exception", excContents (-32603) (some "Internal Error") none)]) := by
  constructor
  · exact (c5_method_exception_fidelity c5_state1 c5_good_handlers
      ⟨some (0, 0), none, some "7", some []⟩ (0, 0) "7" []
      ((methodBuild "m" ⟨.method, 0, 0⟩).getD ⟨⟨.method, 0, 0⟩, []⟩)
      "m" (fun _ _ => .methodExc 7 (some "boom") (some (.vint 3)))
      rfl rfl rfl (by decide) (by decide) rfl).1 7 (some "boom") (some (.vint 3)) rfl
  · exact (c5_method_exception_fidelity c5_state1 c5_bad_handlers
      ⟨some (0, 0), none, some "7", some []⟩ (0, 0) "7" []
      ((methodBuild "m" ⟨.method, 0, 0⟩).getD ⟨⟨.method, 0, 0⟩, []⟩)
      "m" (fun _ _ => .otherExc "secret detail")
      rfl rfl rfl (by decide) (by decide) rfl).2 "secret detail" rfl

/-! ### C6: deferred deletion and the drain cascade

The drain loop runs only at the end of the success branch of
`delete_component`.  Neither `create_component` nor `update_component`
touches the delete queue, so an update that clears the last incoming
reference of a queued component does not remove it, and subsequent
creates and updates complete with the component still registered.  After
a successful delete, however, the cascade leaves no queue entry whose
incoming set is empty. -/

/-- An identifier whose incoming reference set is absent or empty: the
falsy `references.get` test of the source. -/
def eligible (s : ServerState) (i : NID) : Prop :=
  aget s.references i = none ∨ aget s.references i = some []

/-- No entry of the delete queue is clear to be deleted. -/
def noEligible (s : ServerState) : Prop :=
  ∀ i ∈ s.delete_queue, ¬ eligible s i

/-- Statement: a completed `delete_component` leaves no eligible queue
entry (and keeps the queue duplicate-free). -/
def DelDrainsAll (fuel : Nat) : Prop :=
  ∀ s t s' msgs, s.delete_queue.Nodup →
    delete_component fuel s t = .deleted s' msgs →
    noEligible s' ∧ s'.delete_queue.Nodup

/-- Statement: the same for `delete_resolved`. -/
def ResolvedDrainsAll (fuel : Nat) : Prop :=
  ∀ s d s' msgs, s.delete_queue.Nodup →
    delete_resolved fuel s d = .deleted s' msgs →
    noEligible s' ∧ s'.delete_queue.Nodup

/-- Statement: a deferred `delete_component` only changed the queue, by
recording an identifier that still has incoming references. -/
def DelQueuedInv (fuel : Nat) : Prop :=
  ∀ s t s₂, delete_component fuel s t = .queued s₂ →
    s₂.references = s.references ∧
    ∃ did x xs, aget s.references did = some (x :: xs) ∧
      s₂.delete_queue =
        (if did ∈ s.delete_queue then s.delete_queue else s.delete_queue ++ [did])

/-- Statement: the same for `delete_resolved`. -/
def ResolvedQueuedInv (fuel : Nat) : Prop :=
  ∀ s d s₂, delete_resolved fuel s d = .queued s₂ →
    s₂.references = s.references ∧
    ∃ did x xs, aget s.references did = some (x :: xs) ∧
      s₂.delete_queue =
        (if did ∈ s.delete_queue then s.delete_queue else s.delete_queue ++ [did])

/-- Statement: the drain loop never returns a deferred result. -/
def DrainNeverQueues (fuel : Nat) : Prop :=
  ∀ s pending msgs s₂, drain_queue fuel s pending msgs ≠ .queued s₂

/-- Statement: when every eligible queue entry is still in the pending
snapshot, a completed drain leaves no eligible entry at all. -/
def DrainCompletes (fuel : Nat) : Prop :=
  ∀ pending s msgs s' msgs', s.delete_queue.Nodup →
    (∀ i ∈ s.delete_queue, eligible s i → i ∈ pending) →
    drain_queue fuel s pending msgs = .deleted s' msgs' →
    noEligible s' ∧ s'.delete_queue.Nodup

/-- Statement: the same no-eligible conclusion for `drain_step`. -/
def DrainStepCompletes (fuel : Nat) : Prop :=
  ∀ s comp rest msgs s' msgs', s.delete_queue.Nodup →
    (∀ i ∈ s.delete_queue, eligible s i → i = comp ∨ i ∈ rest) →
    drain_step fuel s comp rest msgs = .deleted s' msgs' →
    noEligible s' ∧ s'.delete_queue.Nodup

/-- Statement: `drain_step` never returns a deferred result. -/
def DrainStepNeverQueues (fuel : Nat) : Prop :=
  ∀ s comp rest msgs s₂, drain_step fuel s comp rest msgs ≠ .queued s₂

theorem resolved_drains_zero : ResolvedDrainsAll 0 := by
  intro s d s' msgs _ h
  simp [delete_resolved] at h

theorem resolved_drains_succ (fuel : Nat) (hq : DrainCompletes fuel) :
    ResolvedDrainsAll (fuel + 1) := by
  intro s d s' msgs hnd h
  rw [delete_resolved] at h
  rcases href : aget s.references d.id with _ | ⟨_ | ⟨x, xs⟩⟩ <;> simp only [href] at h
  · cases hst : (aget s.state d.id).isSome <;> simp only [hst] at h
    · simp at h
    · simp only [if_true] at h
      rcases hids : aget s.ids d.id.kind with _ | tr <;> simp only [hids] at h
      · simp at h
      · exact hq _ (delete_success_state s d.id tr) _ _ _ hnd (fun i hi _ => hi) h
  · cases hst : (aget s.state d.id).isSome <;> simp only [hst] at h
    · simp at h
    · simp only [if_true] at h
      rcases hids : aget s.ids d.id.kind with _ | tr <;> simp only [hids] at h
      · simp at h
      · exact hq _ (delete_success_state s d.id tr) _ _ _ hnd (fun i hi _ => hi) h
  · simp at h

theorem del_drains_zero : DelDrainsAll 0 := by
  intro s t s' msgs _ h
  simp [delete_component] at h

theorem del_drains_succ (fuel : Nat) (hr : ResolvedDrainsAll fuel) :
    DelDrainsAll (fuel + 1) := by
  intro s t s' msgs hnd h
  rcases t with d | i
  · rw [delete_component] at h
    exact hr s d s' msgs hnd h
  · rw [delete_component] at h
    cases hres : aget s.state i <;> simp only [hres] at h
    · simp at h
    · exact hr s _ s' msgs hnd h

theorem resolved_queued_zero : ResolvedQueuedInv 0 := by
  intro s d s₂ h
  simp [delete_resolved] at h

theorem resolved_queued_succ (fuel : Nat) (hr : DrainNeverQueues fuel) :
    ResolvedQueuedInv (fuel + 1) := by
  intro s d s₂ h
  rw [delete_resolved] at h
  rcases href : aget s.references d.id with _ | ⟨_ | ⟨x, xs⟩⟩ <;> simp only [href] at h
  · cases hst : (aget s.state d.id).isSome <;> simp only [hst] at h
    · simp at h
    · simp only [if_true] at h
      cases hids : aget s.ids d.id.kind <;> simp only [hids] at h
      · simp at h
      · exact absurd h (hr _ _ _ _)
  · cases hst : (aget s.state d.id).isSome <;> simp only [hst] at h
    · simp at h
    · simp only [if_true] at h
      cases hids : aget s.ids d.id.kind <;> simp only [hids] at h
      · simp at h
      · exact absurd h (hr _ _ _ _)
  · rw [DeleteResult.queued.injEq] at h
    subst h
    exact ⟨rfl, d.id, x, xs, href, rfl⟩

theorem del_queued_zero : DelQueuedInv 0 := by
  intro s t s₂ h
  simp [delete_component] at h

theorem del_queued_succ (fuel : Nat) (hr : ResolvedQueuedInv fuel) :
    DelQueuedInv (fuel + 1) := by
  intro s t s₂ h
  rcases t with d | i
  · rw [delete_component] at h
    exact hr s d s₂ h
  · rw [delete_component] at h
    cases hres : aget s.state i <;> simp only [hres] at h
    · simp at h
    · exact hr s _ s₂ h

theorem drain_no_queue_zero : DrainNeverQueues 0 := by
  intro s pending msgs s₂ h
  simp [drain_queue] at h

theorem drain_step_no_queue_zero : DrainStepNeverQueues 0 := by
  intro s comp rest msgs s₂ h
  simp [drain_step] at h

theorem drain_step_no_queue_succ (fuel : Nat) (hr : DrainNeverQueues fuel) :
    DrainStepNeverQueues (fuel + 1) := by
  intro s comp rest msgs s₂ h
  rw [drain_step] at h
  by_cases hmem : comp ∈ s.delete_queue
  · rw [if_pos hmem] at h
    rcases hdel : delete_component fuel
        { s with delete_queue := s.delete_queue.erase comp } (.inr comp) with
      ⟨s₃, msgs₃⟩ | s₃ | ⟨s₃, msgs₃⟩ | _
    · simp only [hdel] at h
      exact hr _ _ _ _ h
    · simp only [hdel] at h
      exact hr _ _ _ _ h
    · simp [hdel] at h
    · simp [hdel] at h
  · rw [if_neg hmem] at h; simp at h

theorem drain_no_queue_succ (fuel : Nat) (hr : DrainNeverQueues fuel)
    (hrs : DrainStepNeverQueues fuel) : DrainNeverQueues (fuel + 1) := by
  intro s pending msgs s₂ h
  rcases pending with _ | ⟨comp, rest⟩
  · rw [drain_queue] at h; simp at h
  · rw [drain_queue] at h
    rcases href : aget s.references comp with _ | ⟨_ | ⟨x, xs⟩⟩ <;> simp only [href] at h
    · exact hrs _ _ _ _ _ h
    · exact hrs _ _ _ _ _ h
    · exact hr _ _ _ _ h

theorem drain_completes_zero : DrainCompletes 0 := by
  intro pending s msgs s' msgs' _ _ h
  simp [drain_queue] at h

theorem drain_step_completes_zero : DrainStepCompletes 0 := by
  intro s comp rest msgs s' msgs' _ _ h
  simp [drain_step] at h

theorem drain_step_completes_succ (fuel : Nat)
    (hp : DelDrainsAll fuel) (hqd : DelQueuedInv fuel) (hq : DrainCompletes fuel) :
    DrainStepCompletes (fuel + 1) := by
  intro s comp rest msgs s' msgs' hnd hpre h
  rw [drain_step] at h
  by_cases hmem : comp ∈ s.delete_queue
  · rw [if_pos hmem] at h
    rcases hdel : delete_component fuel
        { s with delete_queue := s.delete_queue.erase comp } (.inr comp) with
      ⟨s₂, msgs₂⟩ | s₂ | ⟨s₂, msgs₂⟩ | _
    · simp only [hdel] at h
      obtain ⟨hne, hnd₂⟩ := hp _ _ _ _ (hnd.erase comp) hdel
      exact hq _ _ _ _ _ hnd₂ (fun i hi helig => absurd helig (hne i hi)) h
    · simp only [hdel] at h
      obtain ⟨hrefs₂, did, y, ys, hdid, hq₂⟩ :=
        hqd { s with delete_queue := s.delete_queue.erase comp } (.inr comp) _ hdel
      simp only at hrefs₂ hdid hq₂
      refine hq _ _ _ _ _ ?_ ?_ h
      · rw [hq₂]
        split
        · exact hnd.erase comp
        · simp only [List.nodup_append, List.nodup_cons, List.not_mem_nil,
            not_false_eq_true, List.nodup_nil, and_true, true_and]
          refine ⟨hnd.erase comp, ?_⟩
          intro a ha hb
          rw [List.mem_singleton.mp hb] at ha
          next hno => exact hno ha
      · intro i hi helig
        have hrefs_i : aget s.references i = none ∨ aget s.references i = some [] := by
          rcases helig with h₁ | h₁
          · exact Or.inl (by rw [hrefs₂] at h₁; exact h₁)
          · exact Or.inr (by rw [hrefs₂] at h₁; exact h₁)
        have hine : i ≠ did := by
          intro he
          subst he
          rcases hrefs_i with h₁ | h₁ <;> rw [hdid] at h₁ <;> cases h₁
        have hi₁ : i ∈ s.delete_queue.erase comp := by
          rw [hq₂] at hi
          split at hi
          · exact hi
          · rcases List.mem_append.mp hi with h₁ | h₁
            · exact h₁
            · exact absurd (List.mem_singleton.mp h₁) hine
        have hicomp : i ≠ comp := ((List.Nodup.mem_erase_iff hnd).mp hi₁).1
        have hiq : i ∈ s.delete_queue := ((List.Nodup.mem_erase_iff hnd).mp hi₁).2
        rcases hpre i hiq hrefs_i with h₁ | h₁
        · exact absurd h₁ hicomp
        · exact h₁
    · simp [hdel] at h
    · simp [hdel] at h
  · rw [if_neg hmem] at h; simp at h

theorem drain_completes_succ (fuel : Nat)
    (hq : DrainCompletes fuel) (hqs : DrainStepCompletes fuel) :
    DrainCompletes (fuel + 1) := by
  intro pending s msgs s' msgs' hnd hpre h
  rcases pending with _ | ⟨comp, rest⟩
  · rw [drain_queue] at h
    rw [DeleteResult.deleted.injEq] at h
    obtain ⟨h₁, _⟩ := h
    subst h₁
    refine ⟨?_, hnd⟩
    intro i hi helig
    exact absurd (hpre i hi helig) (List.not_mem_nil i)
  · rw [drain_queue] at h
    rcases href : aget s.references comp with _ | ⟨_ | ⟨x, xs⟩⟩ <;> simp only [href] at h
    · refine hqs _ _ _ _ _ _ hnd ?_ h
      intro i hi helig
      exact List.mem_cons.mp (hpre i hi helig)
    · refine hqs _ _ _ _ _ _ hnd ?_ h
      intro i hi helig
      exact List.mem_cons.mp (hpre i hi helig)
    · refine hq rest s msgs s' msgs' hnd ?_ h
      intro i hi helig
      rcases List.mem_cons.mp (hpre i hi helig) with h₁ | h₁
      · subst h₁
        rcases helig with h₂ | h₂ <;> simp only [href] at h₂ <;> cases h₂
      · exact h₁

/-- The drain ladder assembled over all fuel amounts. -/
theorem delete_drain_all (fuel : Nat) :
    DelDrainsAll fuel ∧ ResolvedDrainsAll fuel ∧ DelQueuedInv fuel ∧
    ResolvedQueuedInv fuel ∧ DrainNeverQueues fuel ∧ DrainStepNeverQueues fuel ∧
    DrainCompletes fuel ∧ DrainStepCompletes fuel := by
  induction fuel with
  | zero =>
      exact ⟨del_drains_zero, resolved_drains_zero, del_queued_zero, resolved_queued_zero,
        drain_no_queue_zero, drain_step_no_queue_zero, drain_completes_zero,
        drain_step_completes_zero⟩
  | succ fuel ih =>
      obtain ⟨p, pr, qd, qdr, r, rs, q, qs⟩ := ih
      exact ⟨del_drains_succ fuel pr, resolved_drains_succ fuel q,
        del_queued_succ fuel qdr, resolved_queued_succ fuel r,
        drain_no_queue_succ fuel r rs, drain_step_no_queue_succ fuel r,
        drain_completes_succ fuel q qs, drain_step_completes_succ fuel p qd q⟩

/-- C6 (amended): the deferred-delete queue is drained only by a
successful delete: when a `delete_component` call completes its success
branch, the cascade has removed every queue entry whose incoming set is
empty (transitively), so no eligible entry remains; `create_component`
and `update_component` never touch the delete queue, so an id whose
incoming set an update or create empties stays registered until the next
successful delete. -/
theorem c6_drain_only_on_successful_delete :
    (∀ fuel s t s' msgs, s.delete_queue.Nodup →
      delete_component fuel s t = .deleted s' msgs → noEligible s') ∧
    (∀ s k build, (create_component s k build).nextState.delete_queue = s.delete_queue) ∧
    (∀ s current, ((update_component s current).nextState s).delete_queue = s.delete_queue) := by
  refine ⟨?_, ?_, ?_⟩
  · intro fuel s t s' msgs hnd h
    exact ((delete_drain_all fuel).1 s t s' msgs hnd h).1
  · intro s k build
    have hkeep := (get_id_keeps_other_fields s k).2.2.2
    cases hb : build (get_id s k).1 <;>
      simp [create_component, hb, CreateResult.nextState, hkeep]
  · intro s current
    cases hcs : aget s.client_state current.id
    · simp [update_component, hcs, UpdateResult.nextState]
    · cases htag : message_map .update (some current.id.kind) <;>
        simp [update_component, hcs, htag, UpdateResult.nextState]

/-- Scenario: Light L, Entity E holding lights [L]; delete L (deferred),
update E to drop the light list, then create a Table. -/
def c6_run1 : CreateResult :=
  create_component ServerState.empty .light
    (lightBuild (.vprim "L") (.ocons "range" (.vint (-1)) .onil) .vnone .vnone)

def c6_state1 : ServerState := c6_run1.nextState

def c6_L : Delegate := (c6_run1.delegate).getD ⟨⟨.light, 99, 99⟩, []⟩

def c6_run2 : CreateResult :=
  create_component c6_state1 .entity (entityBuild (.vprim "E") (vlistOf [.vid c6_L.id]))

def c6_state2 : ServerState := c6_run2.nextState

def c6_E : Delegate := (c6_run2.delegate).getD ⟨⟨.entity, 99, 99⟩, []⟩

def c6_delete1 : DeleteResult := delete_component 20 c6_state2 (.inl c6_L)

def c6_state3 : ServerState := c6_delete1.nextState c6_state2

/-- The entity with its light list cleared. -/
def c6_E_cleared : Delegate := { c6_E with fields := entityFields (.vprim "E") .vnone }

def c6_update : UpdateResult := update_component c6_state3 c6_E_cleared

def c6_state4 : ServerState := c6_update.nextState c6_state3

def c6_run5 : CreateResult := create_component c6_state4 .table (tableBuild "T")

def c6_state5 : ServerState := c6_run5.nextState

def c6_delete2 : DeleteResult := delete_component 20 c6_state5 (.inl c6_E_cleared)

/-- C6 counterexample: deleting the referenced Light defers it; the
update of the Entity then empties its incoming set, yet the update
completes with the Light still queued and registered, and the next
successful create also completes with the Light still in the registry --
refuting the claim that the id is removed before the next successful
create or update completes. -/
theorem c6_eventual_deletion_counterexample :
    c6_L.id ∈ c6_state3.delete_queue ∧
    (match c6_update with | .ok _ _ => true | _ => false) = true ∧
    aget c6_state4.references c6_L.id = some [] ∧
    c6_L.id ∈ c6_state4.delete_queue ∧
    (aget c6_state4.state c6_L.id).isSome = true ∧
    (match c6_run5 with | .ok _ _ _ => true | _ => false) = true ∧
    (aget c6_state5.state c6_L.id).isSome = true ∧
    c6_L.id ∈ c6_state5.delete_queue := by
  decide

/-- C6 amended-claim witness: the drain conclusion at the concrete
cascading delete of the Entity (which sweeps the queued Light), plus the
queue-preservation parts at the concrete create and update. -/
theorem c6_drain_only_on_successful_delete_witness :
    noEligible (c6_delete2.nextState c6_state5) ∧
    (create_component c6_state4 .table (tableBuild "T")).nextState.delete_queue =
      c6_state4.delete_queue ∧
    ((update_component c6_state3 c6_E_cleared).nextState c6_state3).delete_queue =
      c6_state3.delete_queue := by
  refine ⟨?_, ?_, ?_⟩
  · exact c6_drain_only_on_successful_delete.1 20 c6_state5 (.inl c6_E_cleared)
      (c6_delete2.nextState c6_state5) c6_delete2.msgs (by decide) (by decide)
  · exact c6_drain_only_on_successful_delete.2.1 c6_state4 .table (tableBuild "T")
  · exact c6_drain_only_on_successful_delete.2.2 c6_state3 c6_E_cleared

/-! ### C4: topological introduction

`order_components` performs a depth-first search along the edge
direction referent-to-referrer and emits the reverse postorder, so on an
acyclic reference graph every referenced component is listed before
every component that references it.  The development follows the classic
argument: along the recursion path ranks strictly increase, so a visited
but not yet stacked identifier can never be a referrer of the node being
stacked. -/

/-- The identifiers of the components on the sort stack, in order. -/
def stackIds (S : List Delegate) : List NID := S.map Delegate.id

/-- The registry keys. -/
def keysOf (cs : List (NID × Delegate)) : List NID := cs.map Prod.fst

/-- Count of registry keys not yet visited, the fuel measure of the
search. -/
def unvisited (keys V : List NID) : Nat := keys.countP (fun x => decide (x ∉ V))

theorem unvisited_mono (keys V V' : List NID) (h : ∀ x ∈ V, x ∈ V') :
    unvisited keys V' ≤ unvisited keys V := by
  apply List.countP_mono_left
  intro x _ hx
  simp only [decide_eq_true_eq] at hx ⊢
  exact fun hxv => hx (h x hxv)

theorem unvisited_strict (keys V : List NID) (id : NID)
    (hk : id ∈ keys) (hv : id ∉ V) :
    unvisited keys (V ++ [id]) < unvisited keys V := by
  induction keys with
  | nil => simp at hk
  | cons a t ih =>
      simp only [unvisited, List.countP_cons] at *
      by_cases ha : a = id
      · subst ha
        have h₁ : (decide (a ∉ V ++ [a])) = false := by simp
        have h₂ : (decide (a ∉ V)) = true := by simpa using hv
        rw [h₁, h₂]
        have hmono : List.countP (fun x => decide (x ∉ V ++ [a])) t ≤
            List.countP (fun x => decide (x ∉ V)) t := by
          apply List.countP_mono_left
          intro x _ hx
          simp only [decide_eq_true_eq] at hx ⊢
          intro hxv
          exact hx (List.mem_append.mpr (Or.inl hxv))
        simp only [Bool.false_eq_true, if_false, if_true]
        omega
      · have hid : id ∈ t := by
          rcases List.mem_cons.mp hk with h₁ | h₁
          · exact absurd h₁.symm ha
          · exact h₁
        have heq : (decide (a ∉ V ++ [id])) = (decide (a ∉ V)) := by
          by_cases hav : a ∈ V
          · simp [hav]
          · simp [hav, List.mem_append, ha]
        rw [heq]
        have := ih hid
        omega

theorem unvisited_pos (keys V : List NID) (id : NID)
    (hk : id ∈ keys) (hv : id ∉ V) : 0 < unvisited keys V := by
  apply List.countP_pos_iff.mpr
  exact ⟨id, hk, by simpa using hv⟩

/-- The referrers of every stacked component are stacked before it. -/
def StackSorted (refs : RefMap) (S : List Delegate) : Prop :=
  ∀ j v, S.get? j = some v → ∀ w ∈ refsGet refs v.id,
    ∃ i, i < j ∧ ∃ u, S.get? i = some u ∧ u.id = w

/-- Invariant of the depth-first search: `V` is the visited set, `S` the
stack, `G` the identifiers on the current recursion path (gray nodes). -/
structure TsrInv (refs : RefMap) (components : List (NID × Delegate))
    (V : List NID) (S : List Delegate) (G : List NID) : Prop where
  stack_sub : ∀ x ∈ stackIds S, x ∈ V
  vis_cover : ∀ x ∈ V, x ∈ stackIds S ∨ x ∈ G
  nodup : (stackIds S).Nodup
  sorted : StackSorted refs S
  prov : ∀ d ∈ S, (d.id, d) ∈ components
  vis_keys : ∀ x ∈ V, x ∈ keysOf components

theorem stackIds_append (S : List Delegate) (d : Delegate) :
    stackIds (S ++ [d]) = stackIds S ++ [d.id] := by
  simp [stackIds]

theorem stackIds_mem_iff (S : List Delegate) (w : NID) :
    w ∈ stackIds S ↔ ∃ i u, S.get? i = some u ∧ u.id = w := by
  constructor
  · intro h
    rcases List.mem_map.mp h with ⟨u, hu, he⟩
    rcases List.mem_iff_get?.mp hu with ⟨i, hi⟩
    exact ⟨i, u, hi, he⟩
  · rintro ⟨i, u, hi, he⟩
    exact List.mem_map.mpr ⟨u, List.get?_mem hi, he⟩

theorem stackIds_nodup_pos (S : List Delegate) (h : (stackIds S).Nodup)
    (i j : Nat) (u v : Delegate) (hi : S.get? i = some u) (hj : S.get? j = some v)
    (he : u.id = v.id) : i = j := by
  rcases List.get?_eq_some.mp hi with ⟨hilt, hig⟩
  rcases List.get?_eq_some.mp hj with ⟨hjlt, hjg⟩
  have hlen : (stackIds S).length = S.length := by simp [stackIds]
  have hig2 : S[i] = u := by simpa [List.get_eq_getElem] using hig
  have hjg2 : S[j] = v := by simpa [List.get_eq_getElem] using hjg
  have hmi : (stackIds S).get ⟨i, by omega⟩ = u.id := by
    simp [stackIds, hig2]
  have hmj : (stackIds S).get ⟨j, by omega⟩ = v.id := by
    simp [stackIds, hjg2]
  have hfin : (⟨i, by omega⟩ : Fin (stackIds S).length) = ⟨j, by omega⟩ := by
    apply h.get_inj_iff.mp
    rw [hmi, hmj, he]
  exact congrArg Fin.val hfin

/-- Well-formedness of the registry and reference index for the sort:
referrers are registered, the reference relation respects an acyclicity
rank, and registry values carry their own key. -/
structure TsrWf (refs : RefMap) (components : List (NID × Delegate)) (rank : NID → Nat) :
    Prop where
  closed : ∀ a b, b ∈ refsGet refs a → b ∈ keysOf components
  ranked : ∀ a b, b ∈ refsGet refs a → rank a < rank b
  vals : ∀ p ∈ components, (Prod.snd p).id = Prod.fst p

/-- Full specification of one `top_sort_recurse` call: the invariant is
preserved with the caller's gray set, visited set and stack only grow,
the requested identifier ends up visited, and every newly stacked
identifier was unvisited at entry. -/
theorem tsr_spec (refs : RefMap) (components : List (NID × Delegate)) (rank : NID → Nat)
    (hwf : TsrWf refs components rank) :
    ∀ fuel id V S G,
      TsrInv refs components V S G →
      id ∉ V → id ∈ keysOf components →
      (∀ g ∈ G, rank g < rank id) →
      unvisited (keysOf components) V ≤ fuel →
      TsrInv refs components (top_sort_recurse fuel refs components id V S).1
        (top_sort_recurse fuel refs components id V S).2 G ∧
      (∃ W, (top_sort_recurse fuel refs components id V S).1 = V ++ W) ∧
      (∃ Δ, (top_sort_recurse fuel refs components id V S).2 = S ++ Δ) ∧
      id ∈ (top_sort_recurse fuel refs components id V S).1 ∧
      (∀ x ∈ stackIds (top_sort_recurse fuel refs components id V S).2,
        x ∈ stackIds S ∨ x ∉ V) := by
  intro fuel
  induction fuel with
  | zero =>
      intro id V S G _ hidV hidK _ hfuel
      exact absurd hfuel (by
        have := unvisited_pos (keysOf components) V id hidK hidV
        omega)
  | succ fuel ihfuel =>
      intro id V S G inv hidV hidK hG hfuel
      obtain ⟨d, hd⟩ := mem_fst_exists_aget components id hidK
      have hdmem : (id, d) ∈ components := aget_mem _ _ _ hd
      have hdid : d.id = id := hwf.vals (id, d) hdmem
      have inv₁ : TsrInv refs components (V ++ [id]) S (G ++ [id]) := by
        refine ⟨?_, ?_, inv.nodup, inv.sorted, inv.prov, ?_⟩
        · exact fun x hx => List.mem_append.mpr (Or.inl (inv.stack_sub x hx))
        · intro x hx
          rcases List.mem_append.mp hx with hx | hx
          · rcases inv.vis_cover x hx with hx₁ | hx₁
            · exact Or.inl hx₁
            · exact Or.inr (List.mem_append.mpr (Or.inl hx₁))
          · exact Or.inr (List.mem_append.mpr (Or.inr hx))
        · intro x hx
          rcases List.mem_append.mp hx with hx | hx
          · exact inv.vis_keys x hx
          · rw [List.mem_singleton.mp hx]; exact hidK
      have hfuel₁ : unvisited (keysOf components) (V ++ [id]) ≤ fuel := by
        have := unvisited_strict (keysOf components) V id hidK hidV
        omega
      have hrl : ∀ r ∈ refsGet refs id, r ∈ keysOf components ∧
          ∀ g ∈ G ++ [id], rank g < rank r := by
        intro r hr
        refine ⟨hwf.closed id r hr, ?_⟩
        intro g hg
        rcases List.mem_append.mp hg with hg | hg
        · exact Nat.lt_trans (hG g hg) (hwf.ranked id r hr)
        · rw [List.mem_singleton.mp hg]; exact hwf.ranked id r hr
      have loopSpec : ∀ (rl : List NID), (∀ r ∈ rl, r ∈ keysOf components ∧
          ∀ g ∈ G ++ [id], rank g < rank r) →
          ∀ (V₀ : List NID) (S₀ : List Delegate),
          TsrInv refs components V₀ S₀ (G ++ [id]) →
          unvisited (keysOf components) V₀ ≤ fuel →
          TsrInv refs components
            (rl.foldl (fun acc r =>
              if r ∈ acc.1 then acc
              else top_sort_recurse fuel refs components r acc.1 acc.2) (V₀, S₀)).1
            (rl.foldl (fun acc r =>
              if r ∈ acc.1 then acc
              else top_sort_recurse fuel refs components r acc.1 acc.2) (V₀, S₀)).2
            (G ++ [id]) ∧
          (∃ W, (rl.foldl (fun acc r =>
              if r ∈ acc.1 then acc
              else top_sort_recurse fuel refs components r acc.1 acc.2) (V₀, S₀)).1
            = V₀ ++ W) ∧
          (∃ Δ, (rl.foldl (fun acc r =>
              if r ∈ acc.1 then acc
              else top_sort_recurse fuel refs components r acc.1 acc.2) (V₀, S₀)).2
            = S₀ ++ Δ) ∧
          (∀ r ∈ rl, r ∈ (rl.foldl (fun acc r =>
              if r ∈ acc.1 then acc
              else top_sort_recurse fuel refs components r acc.1 acc.2) (V₀, S₀)).1) ∧
          (∀ x ∈ stackIds (rl.foldl (fun acc r =>
              if r ∈ acc.1 then acc
              else top_sort_recurse fuel refs components r acc.1 acc.2) (V₀, S₀)).2,
            x ∈ stackIds S₀ ∨ x ∉ V₀) := by
        intro rl
        induction rl with
        | nil =>
            intro _ V₀ S₀ inv₀ _
            exact ⟨inv₀, ⟨[], by simp⟩, ⟨[], by simp⟩, by simp,
              fun x hx => Or.inl hx⟩
        | cons r rest ihrl =>
            intro hparams V₀ S₀ inv₀ hfuel₀
            have hparams_rest : ∀ r ∈ rest, r ∈ keysOf components ∧
                ∀ g ∈ G ++ [id], rank g < rank r :=
              fun r hr => hparams r (List.mem_cons_of_mem _ hr)
            rw [List.foldl_cons]
            by_cases hrv : r ∈ V₀
            · rw [if_pos hrv]
              obtain ⟨inv₂, hW, hS, hrest, hnew⟩ :=
                ihrl hparams_rest V₀ S₀ inv₀ hfuel₀
              refine ⟨inv₂, hW, hS, ?_, hnew⟩
              intro r' hr'
              rcases List.mem_cons.mp hr' with hr' | hr'
              · subst hr'
                obtain ⟨W, hWe⟩ := hW
                rw [hWe]
                exact List.mem_append.mpr (Or.inl hrv)
              · exact hrest r' hr'
            · rw [if_neg hrv]
              obtain ⟨hkey, hrank⟩ := hparams r (List.mem_cons_self r rest)
              obtain ⟨inv₁', ⟨W₁, hW₁⟩, ⟨Δ₁, hΔ₁⟩, hrmem, hnew₁⟩ :=
                ihfuel r V₀ S₀ (G ++ [id]) inv₀ hrv hkey hrank hfuel₀
              have hextend₁ : ∀ x ∈ V₀,
                  x ∈ (top_sort_recurse fuel refs components r V₀ S₀).1 := by
                intro x hx
                rw [hW₁]
                exact List.mem_append.mpr (Or.inl hx)
              have hfuel₂ : unvisited (keysOf components)
                  (top_sort_recurse fuel refs components r V₀ S₀).1 ≤ fuel :=
                le_trans (unvisited_mono _ _ _ hextend₁) hfuel₀
              obtain ⟨inv₂, ⟨W₂, hW₂⟩, ⟨Δ₂, hΔ₂⟩, hrest, hnew₂⟩ :=
                ihrl hparams_rest _ _ inv₁' hfuel₂
              refine ⟨inv₂, ⟨W₁ ++ W₂, by rw [hW₂, hW₁, List.append_assoc]⟩,
                ⟨Δ₁ ++ Δ₂, by rw [hΔ₂, hΔ₁, List.append_assoc]⟩, ?_, ?_⟩
              · intro r' hr'
                rcases List.mem_cons.mp hr' with hr' | hr'
                · subst hr'
                  rw [hW₂]
                  exact List.mem_append.mpr (Or.inl hrmem)
                · exact hrest r' hr'
              · intro x hx
                rcases hnew₂ x hx with hx₁ | hx₁
                · rcases hnew₁ x (by rw [hΔ₁] at hx₁ ⊢; exact hx₁) with hx₂ | hx₂
                  · exact Or.inl hx₂
                  · exact Or.inr hx₂
                · refine Or.inr ?_
                  intro hxv
                  exact hx₁ (hextend₁ x hxv)
      obtain ⟨inv₂, ⟨W, hW⟩, ⟨Δ, hΔ⟩, hall, hnew⟩ :=
        loopSpec (refsGet refs id) hrl (V ++ [id]) S inv₁ hfuel₁
      have hres : top_sort_recurse (fuel + 1) refs components id V S =
          (((refsGet refs id).foldl (fun acc r =>
              if r ∈ acc.1 then acc
              else top_sort_recurse fuel refs components r acc.1 acc.2)
            (V ++ [id], S)).1,
           ((refsGet refs id).foldl (fun acc r =>
              if r ∈ acc.1 then acc
              else top_sort_recurse fuel refs components r acc.1 acc.2)
            (V ++ [id], S)).2 ++ [d]) := by
        rw [top_sort_recurse, hd]
      set res := (refsGet refs id).foldl (fun acc r =>
          if r ∈ acc.1 then acc
          else top_sort_recurse fuel refs components r acc.1 acc.2) (V ++ [id], S)
        with hresdef
      have hid_in_res : id ∈ res.1 := by
        rw [hW]
        exact List.mem_append.mpr (Or.inl (List.mem_append.mpr (Or.inr (by simp))))
      have hid_not_stacked : id ∉ stackIds res.2 := by
        intro hmem
        rcases hnew id hmem with h₁ | h₁
        · exact hidV (inv.stack_sub id h₁)
        · exact h₁ (List.mem_append.mpr (Or.inr (by simp)))
      rw [hres]
      refine ⟨?_, ?_, ?_, ?_, ?_⟩
      · refine ⟨?_, ?_, ?_, ?_, ?_, inv₂.vis_keys⟩
        · intro x hx
          rw [stackIds_append] at hx
          rcases List.mem_append.mp hx with hx | hx
          · exact inv₂.stack_sub x hx
          · rw [List.mem_singleton.mp hx, hdid]
            exact hid_in_res
        · intro x hx
          rcases inv₂.vis_cover x hx with hx₁ | hx₁
          · exact Or.inl (by rw [stackIds_append]; exact List.mem_append.mpr (Or.inl hx₁))
          · rcases List.mem_append.mp hx₁ with hx₂ | hx₂
            · exact Or.inr hx₂
            · refine Or.inl ?_
              rw [stackIds_append, List.mem_singleton.mp hx₂, hdid]
              exact List.mem_append.mpr (Or.inr (by simp))
        · rw [stackIds_append]
          simp only [List.nodup_append, List.nodup_cons, List.not_mem_nil,
            not_false_eq_true, List.nodup_nil, and_true, true_and]
          refine ⟨inv₂.nodup, ?_⟩
          intro a ha hb
          rw [List.mem_singleton.mp hb, hdid] at ha
          exact hid_not_stacked ha
        · intro j v hj w hw
          rcases Nat.lt_trichotomy j res.2.length with hlt | heq | hgt
          · rw [List.get?_append hlt] at hj
            obtain ⟨i, hij, u, hu, huid⟩ := inv₂.sorted j v hj w hw
            exact ⟨i, hij, u, by rw [List.get?_append (Nat.lt_trans hij hlt)]; exact hu, huid⟩
          · subst heq
            rw [List.get?_concat_length] at hj
            have hvd : v = d := by
              injection hj with h
              exact h.symm
            subst hvd
            rw [hdid] at hw
            have hw_res : w ∈ res.1 := hall w hw
            rcases inv₂.vis_cover w hw_res with hw₁ | hw₁
            · obtain ⟨i, u, hu, huid⟩ := (stackIds_mem_iff res.2 w).mp hw₁
              have hilt : i < res.2.length := by
                rcases List.get?_eq_some.mp hu with ⟨hl, _⟩
                exact hl
              refine ⟨i, hilt, u, ?_, huid⟩
              rw [List.get?_append hilt]
              exact hu
            · rcases List.mem_append.mp hw₁ with hw₂ | hw₂
              · exact absurd (hwf.ranked id w hw) (Nat.lt_asymm (hG w hw₂))
              · rw [List.mem_singleton.mp hw₂] at hw
                exact absurd (hwf.ranked id id hw) (Nat.lt_irrefl _)
          · exfalso
            have : (res.2 ++ [d]).get? j = none := by
              apply List.get?_eq_none.mpr
              simp only [List.length_append, List.length_singleton]
              omega
            rw [this] at hj
            cases hj
        · intro e he
          rcases List.mem_append.mp he with he | he
          · exact inv₂.prov e he
          · rw [List.mem_singleton.mp he]
            rw [hdid]
            exact hdmem
      · exact ⟨[id] ++ W, by rw [hW, List.append_assoc]⟩
      · exact ⟨Δ ++ [d], by rw [hΔ, List.append_assoc]⟩
      · exact hid_in_res
      · intro x hx
        rw [stackIds_append] at hx
        rcases List.mem_append.mp hx with hx | hx
        · rcases hnew x hx with hx₁ | hx₁
          · exact Or.inl hx₁
          · refine Or.inr ?_
            intro hxv
            exact hx₁ (List.mem_append.mpr (Or.inl hxv))
        · rw [List.mem_singleton.mp hx, hdid]
          exact Or.inr hidV

/-- Specification of the driver loop of `order_components`: starting from
an invariant state with an empty gray set, the loop preserves the
invariant and visits the key of every component it iterates over. -/
theorem order_fold_spec (refs : RefMap) (components : List (NID × Delegate))
    (rank : NID → Nat) (hwf : TsrWf refs components rank) :
    ∀ (ps : List (NID × Delegate)) (V : List NID) (S : List Delegate),
      (∀ p ∈ ps, Prod.fst p ∈ keysOf components) →
      TsrInv refs components V S [] →
      TsrInv refs components
        (ps.foldl (fun (acc : List NID × List Delegate) p =>
          if p.1 ∈ acc.1 then acc
          else top_sort_recurse components.length refs components p.1 acc.1 acc.2)
          (V, S)).1
        (ps.foldl (fun (acc : List NID × List Delegate) p =>
          if p.1 ∈ acc.1 then acc
          else top_sort_recurse components.length refs components p.1 acc.1 acc.2)
          (V, S)).2 [] ∧
      (∃ W, (ps.foldl (fun (acc : List NID × List Delegate) p =>
          if p.1 ∈ acc.1 then acc
          else top_sort_recurse components.length refs components p.1 acc.1 acc.2)
          (V, S)).1 = V ++ W) ∧
      (∀ p ∈ ps, Prod.fst p ∈ (ps.foldl (fun (acc : List NID × List Delegate) p =>
          if p.1 ∈ acc.1 then acc
          else top_sort_recurse components.length refs components p.1 acc.1 acc.2)
          (V, S)).1) := by
  intro ps
  induction ps with
  | nil =>
      intro V S _ inv
      exact ⟨inv, ⟨[], by simp⟩, by simp⟩
  | cons p rest ihps =>
      intro V S hps inv
      have hps_rest : ∀ q ∈ rest, Prod.fst q ∈ keysOf components :=
        fun q hq => hps q (List.mem_cons_of_mem _ hq)
      rw [List.foldl_cons]
      by_cases hpv : p.1 ∈ V
      · rw [if_pos hpv]
        obtain ⟨inv₂, ⟨W, hW⟩, hrest⟩ := ihps V S hps_rest inv
        refine ⟨inv₂, ⟨W, hW⟩, ?_⟩
        intro q hq
        rcases List.mem_cons.mp hq with hq | hq
        · subst hq
          rw [hW]
          exact List.mem_append.mpr (Or.inl hpv)
        · exact hrest q hq
      · rw [if_neg hpv]
        have hfuel : unvisited (keysOf components) V ≤ components.length := by
          have h₁ : unvisited (keysOf components) V ≤ (keysOf components).length :=
            List.countP_le_length _
          have h₂ : (keysOf components).length = components.length := by
            simp [keysOf]
          omega
        obtain ⟨inv₁, ⟨W₁, hW₁⟩, _, hpmem, _⟩ :=
          tsr_spec refs components rank hwf components.length p.1 V S []
            inv hpv (hps p (List.mem_cons_self p rest))
            (fun g hg => absurd hg (List.not_mem_nil g)) hfuel
        obtain ⟨inv₂, ⟨W₂, hW₂⟩, hrest⟩ := ihps _ _ hps_rest inv₁
        refine ⟨inv₂, ⟨W₁ ++ W₂, by rw [hW₂, hW₁, List.append_assoc]⟩, ?_⟩
        intro q hq
        rcases List.mem_cons.mp hq with hq | hq
        · subst hq
          rw [hW₂]
          exact List.mem_append.mpr (Or.inl hpmem)
        · exact hrest q hq

/-- The ordered list produced by `order_components` on a well-formed
state: its identifiers are exactly the registry keys without duplicates,
every entry comes from the registry, and for every entry each component
it references appears strictly earlier in the list, provided the actual
field references are recorded in the reverse index and point at
registered components. -/
theorem order_components_spec (refs : RefMap) (components : List (NID × Delegate))
    (rank : NID → Nat) (hwf : TsrWf refs components rank)
    (hsound : ∀ p ∈ components, ∀ r ∈ delegateRefs (Prod.snd p),
      Prod.fst p ∈ refsGet refs r ∧ r ∈ keysOf components) :
    (stackIds (order_components components refs)).Nodup ∧
    (∀ p ∈ components, Prod.fst p ∈ stackIds (order_components components refs)) ∧
    (∀ d ∈ order_components components refs, (d.id, d) ∈ components) ∧
    (∀ j d, (order_components components refs).get? j = some d →
      ∀ r ∈ delegateRefs d, ∃ i, i < j ∧
        ∃ u, (order_components components refs).get? i = some u ∧ u.id = r) := by
  have inv₀ : TsrInv refs components [] [] [] := by
    refine ⟨?_, ?_, ?_, ?_, ?_, ?_⟩
    · intro x hx; simp [stackIds] at hx
    · intro x hx; simp at hx
    · simp [stackIds]
    · intro j v hj; simp at hj
    · intro e he; simp at he
    · intro x hx; simp at hx
  obtain ⟨inv, _, hallv⟩ := order_fold_spec refs components rank hwf
    components [] [] (fun p hp => List.mem_map_of_mem Prod.fst hp) inv₀
  set res := components.foldl (fun (acc : List NID × List Delegate) p =>
      if p.1 ∈ acc.1 then acc
      else top_sort_recurse components.length refs components p.1 acc.1 acc.2)
    ([], []) with hres
  have hord : order_components components refs = res.2.reverse := rfl
  have hstackrev : ∀ w, w ∈ stackIds res.2.reverse ↔ w ∈ stackIds res.2 := by
    intro w
    simp [stackIds]
  have hcomplete : ∀ p ∈ components, Prod.fst p ∈ stackIds res.2 := by
    intro p hp
    rcases inv.vis_cover p.1 (hallv p hp) with h | h
    · exact h
    · exact absurd h (List.not_mem_nil _)
  have hlen : res.2.reverse.length = res.2.length := List.length_reverse _
  refine ⟨?_, ?_, ?_, ?_⟩
  · rw [hord]
    have : stackIds res.2.reverse = (stackIds res.2).reverse := by
      simp [stackIds]
    rw [this]
    exact List.nodup_reverse.mpr inv.nodup
  · intro p hp
    rw [hord, hstackrev]
    exact hcomplete p hp
  · intro d hd
    rw [hord] at hd
    exact inv.prov d (List.mem_reverse.mp hd)
  · intro j d hj r hr
    rw [hord] at hj ⊢
    have hjlt : j < res.2.length := by
      rcases List.get?_eq_some.mp hj with ⟨hl, _⟩
      rw [hlen] at hl
      exact hl
    have hjstack : res.2.get? (res.2.length - 1 - j) = some d := by
      rw [← List.get?_reverse (by omega : j < res.2.length)]
      exact hj
    have hdmem : d ∈ res.2 := List.get?_mem hjstack
    have hdprov : (d.id, d) ∈ components := inv.prov d hdmem
    obtain ⟨hrefrec, hrkey⟩ := hsound (d.id, d) hdprov r hr
    obtain ⟨q, hq, hqr⟩ :=
      List.mem_map.mp (show r ∈ components.map Prod.fst from hrkey)
    have hrstack : r ∈ stackIds res.2 := by
      rw [← hqr]
      exact hcomplete q hq
    obtain ⟨j₁, u₁, hu₁, hu₁id⟩ := (stackIds_mem_iff res.2 r).mp hrstack
    have hj₁lt : j₁ < res.2.length := by
      rcases List.get?_eq_some.mp hu₁ with ⟨hl, _⟩
      exact hl
    have hdref : d.id ∈ refsGet refs u₁.id := by
      rw [hu₁id]
      exact hrefrec
    obtain ⟨i₁, hi₁lt, u₂, hu₂, hu₂id⟩ := inv.sorted j₁ u₁ hu₁ d.id hdref
    have hpos : i₁ = res.2.length - 1 - j := by
      exact stackIds_nodup_pos res.2 inv.nodup i₁ (res.2.length - 1 - j) u₂ d
        hu₂ hjstack hu₂id
    refine ⟨res.2.length - 1 - j₁, by omega, u₁, ?_, hu₁id⟩
    rw [List.get?_reverse (by omega : res.2.length - 1 - j₁ < res.2.length)]
    have : res.2.length - 1 - (res.2.length - 1 - j₁) = j₁ := by omega
    rw [this]
    exact hu₁

/-- C4: on a server state whose reference graph is acyclic (witnessed by a
rank function), whose reverse reference index is closed over the registry
and records every field reference, and whose registry entries carry their
own key, the frame returned by `introduce()` is the create message of each
registered component, each exactly once, followed by the document update
(tag 31) and the initialized message (tag 35); and each component's create
message is preceded by the create message of every component it
references, so a client processing the frame in order never dereferences
an identifier it has not yet seen. -/
theorem c4_topological_introduction (s : ServerState) (rank : NID → Nat)
    (hclosed : ∀ p ∈ s.references, ∀ b ∈ Prod.snd p, b ∈ keysOf s.state)
    (hranked : ∀ p ∈ s.references, ∀ b ∈ Prod.snd p, rank (Prod.fst p) < rank b)
    (hvals : ∀ p ∈ s.state, (Prod.snd p).id = Prod.fst p)
    (hsound : ∀ p ∈ s.state, ∀ r ∈ delegateRefs (Prod.snd p),
      Prod.fst p ∈ refsGet s.references r ∧ r ∈ keysOf s.state) :
    handle_intro s =
      (order_components s.state s.references).map
        (fun d => ((message_map .create (some d.id.kind)).getD 0, createContents d))
      ++ [(31, documentContents s), (35, [])] ∧
    (stackIds (order_components s.state s.references)).Nodup ∧
    (∀ p ∈ s.state, Prod.fst p ∈ stackIds (order_components s.state s.references)) ∧
    (∀ d ∈ order_components s.state s.references, (d.id, d) ∈ s.state) ∧
    (∀ j d, (order_components s.state s.references).get? j = some d →
      ∀ r ∈ delegateRefs d, ∃ i, i < j ∧
        ∃ u, (order_components s.state s.references).get? i = some u ∧ u.id = r) := by
  have hwf : TsrWf s.references s.state rank := by
    refine ⟨?_, ?_, hvals⟩
    · intro a b hb
      simp only [refsGet] at hb
      cases hag : aget s.references a with
      | none => rw [hag] at hb; simp at hb
      | some l =>
          rw [hag] at hb
          simp only [Option.getD_some] at hb
          exact hclosed (a, l) (aget_mem _ _ _ hag) b hb
    · intro a b hb
      simp only [refsGet] at hb
      cases hag : aget s.references a with
      | none => rw [hag] at hb; simp at hb
      | some l =>
          rw [hag] at hb
          simp only [Option.getD_some] at hb
          exact hranked (a, l) (aget_mem _ _ _ hag) b hb
  obtain ⟨hnd, hcov, hprov, hsort⟩ :=
    order_components_spec s.references s.state rank hwf hsound
  exact ⟨rfl, hnd, hcov, hprov, hsort⟩

/-- Witness scene for C4 (scenario S7): a Buffer, a BufferView referencing
the Buffer, and a Geometry referencing the BufferView, with the reverse
reference index that `_update_references` would have recorded. -/
def c4s : ServerState :=
  { ids := [(.buffer, { next_slot := 1, on_deck := [] }),
            (.bufferView, { next_slot := 1, on_deck := [] }),
            (.geometry, { next_slot := 1, on_deck := [] })],
    state := [(⟨.buffer, 0, 0⟩, ⟨⟨.buffer, 0, 0⟩, [("name", .vprim "b"), ("size", .vint 8)]⟩),
              (⟨.bufferView, 0, 0⟩, ⟨⟨.bufferView, 0, 0⟩,
                [("name", .vprim "v"), ("source_buffer", .vid ⟨.buffer, 0, 0⟩)]⟩),
              (⟨.geometry, 0, 0⟩, ⟨⟨.geometry, 0, 0⟩,
                [("name", .vprim "g"), ("patches", .vcons (.vid ⟨.bufferView, 0, 0⟩) .vnil)]⟩)],
    client_state := [(⟨.buffer, 0, 0⟩, ⟨⟨.buffer, 0, 0⟩, [("name", .vprim "b"), ("size", .vint 8)]⟩),
              (⟨.bufferView, 0, 0⟩, ⟨⟨.bufferView, 0, 0⟩,
                [("name", .vprim "v"), ("source_buffer", .vid ⟨.buffer, 0, 0⟩)]⟩),
              (⟨.geometry, 0, 0⟩, ⟨⟨.geometry, 0, 0⟩,
                [("name", .vprim "g"), ("patches", .vcons (.vid ⟨.bufferView, 0, 0⟩) .vnil)]⟩)],
    references := [(⟨.buffer, 0, 0⟩, [⟨.bufferView, 0, 0⟩]),
                   (⟨.bufferView, 0, 0⟩, [⟨.geometry, 0, 0⟩])],
    delete_queue := [] }

/-- Acyclicity rank for the witness scene: buffers before views before
everything else. -/
def c4rank (n : NID) : Nat :=
  match n.kind with
  | .buffer => 0
  | .bufferView => 1
  | _ => 2

theorem c4_topological_introduction_witness :
    ((∀ p ∈ c4s.references, ∀ b ∈ Prod.snd p, b ∈ keysOf c4s.state) ∧
     (∀ p ∈ c4s.references, ∀ b ∈ Prod.snd p, c4rank (Prod.fst p) < c4rank b) ∧
     (∀ p ∈ c4s.state, (Prod.snd p).id = Prod.fst p) ∧
     (∀ p ∈ c4s.state, ∀ r ∈ delegateRefs (Prod.snd p),
       Prod.fst p ∈ refsGet c4s.references r ∧ r ∈ keysOf c4s.state)) ∧
    stackIds (order_components c4s.state c4s.references) =
      [⟨.buffer, 0, 0⟩, ⟨.bufferView, 0, 0⟩, ⟨.geometry, 0, 0⟩] ∧
    (handle_intro c4s).map Prod.fst = [10, 12, 26, 31, 35] ∧
    handle_intro c4s =
      (order_components c4s.state c4s.references).map
        (fun d => ((message_map .create (some d.id.kind)).getD 0, createContents d))
      ++ [(31, documentContents c4s), (35, [])] :=
  ⟨⟨by decide, by decide, by decide, by decide⟩, by decide, by decide,
   (c4_topological_introduction c4s c4rank (by decide) (by decide) (by decide)
     (by decide)).1⟩

end Rigatoni
